import Mathlib

/-!
The lithium HTTP backend (`http_listen2.hh`)

A shallow embedding of `li::http_async_impl`: `read_buffer`, `output_buffer`,
`http_ctx` and the connection loop of `make_http_processor`.

Conventions.

* A byte is a natural number, a byte string is a `List Nat`.
* `read_buffer::buffer_` is a length `size` and a content function `mem`;
  a `char*` into it is its offset from `buffer_.data()`, a null pointer is `none`.
* `std::string_view` is a pair of a start offset and a `size_t` length
  (64 bit, wrap-around written out with `% 2 ^ 64`).
* The injected `read` closure is a queue of pieces still to be delivered by the
  socket; `read(buf, n)` hands over the next piece, or its first `n` bytes when
  it is longer, and returns `0` once the queue is empty.
* The injected `write` closure appends its argument to `written` and returns
  `write_returns`.
* Loops without a bound of their own take a fuel argument.  A computation ends
  in `Res.ok`, or in a `Fault`: a failed `assert`, undefined behaviour of the
  C++ code, an exception nobody catches, or exhausted fuel.
-/

namespace Lithium

/-! ## Results -/

/-- Reasons why a computation yields no value. -/
inductive Fault where
  | assertion
  | undefined
  | thrown
  | fuel
  deriving DecidableEq, Repr

/-- Outcome of a computation that may fail. -/
inductive Res (α : Type) where
  | ok (a : α)
  | fault (f : Fault)
  deriving DecidableEq, Repr

/-- Sequencing of fallible computations. -/
def Res.bind {α β : Type} (x : Res α) (f : α → Res β) : Res β :=
  match x with
  | .ok a => f a
  | .fault e => .fault e

instance : Monad Res where
  pure := Res.ok
  bind := Res.bind

/-- Projection of a result through a function. -/
def Res.view {α β : Type} (f : α → β) (x : Res α) : Res β :=
  match x with
  | .ok a => .ok (f a)
  | .fault e => .fault e

/-! ## Bytes -/

/-- Bytes of a string literal. -/
def bytes (s : String) : List Nat := s.toList.map Char.toNat

/-- Carriage return. -/
def CR : Nat := 13

/-- Line feed. -/
def LF : Nat := 10

/-- Space. -/
def SP : Nat := 32

/-- Range of `size_t`. -/
def SIZE_RANGE : Nat := 2 ^ 64

/-- Memory after storing `bs` from offset `pos` on. -/
def store (mem : Nat → Nat) (pos : Nat) (bs : List Nat) : Nat → Nat :=
  fun i => if pos ≤ i ∧ i < pos + bs.length then bs.getD (i - pos) 0 else mem i

/-- Bytes of `mem` in `[pos, pos + n)`. -/
def load (mem : Nat → Nat) (pos n : Nat) : List Nat :=
  (List.range n).map (fun i => mem (pos + i))

/-- The call `std::memmove(dst, src, n)` inside one buffer. -/
def memmove (mem : Nat → Nat) (dst src n : Nat) : Nat → Nat :=
  fun i => if dst ≤ i ∧ i < dst + n then mem (src + (i - dst)) else mem i

/-- The call `std::memcpy(dst, src, n)` inside a buffer of `size` bytes: undefined when the
two ranges overlap or leave the buffer. -/
def memcpy (size : Nat) (mem : Nat → Nat) (dst src n : Nat) : Res (Nat → Nat) :=
  if n = 0 then .ok mem
  else if dst + n ≤ size ∧ src + n ≤ size ∧ (dst + n ≤ src ∨ src + n ≤ dst) then
    .ok (memmove mem dst src n)
  else .fault .undefined

/-! ## The socket behind the `read` closure -/

/-- Pieces the socket will still deliver, in order. -/
abbrev Sock := List (List Nat)

/-- The call `read(buf, n)`: the bytes received and the socket afterwards. -/
def sock_read (s : Sock) (n : Nat) : List Nat × Sock :=
  match s with
  | [] => ([], [])
  | p :: rest => if p.length ≤ n then (p, rest) else (p.take n, p.drop n :: rest)

/-! ## `read_buffer` -/

/-- The struct `read_buffer`. -/
structure read_buffer where
  size : Nat
  mem : Nat → Nat
  cursor : Nat
  end_ : Nat

/-- The constructor `read_buffer()`: 4 KiB of zeros. -/
def read_buffer.new : read_buffer :=
  { size := 4 * 1024, mem := fun _ => 0, cursor := 0, end_ := 0 }

/-- The overload `free(int i1, int i2)`. -/
def read_buffer.free (rb : read_buffer) (i1 i2 : Nat) : Res read_buffer :=
  if ¬ (i1 < i2) then .fault .assertion
  else if ¬ (i1 < rb.size) then .fault .assertion
  else if ¬ (0 < i2 ∧ i2 ≤ rb.size) then .fault .assertion
  else if i1 = rb.cursor ∧ i2 = rb.end_ then .ok { rb with cursor := 0, end_ := 0 }
  else if i1 = rb.cursor then .ok { rb with cursor := i2 }
  else if i2 = rb.end_ then .ok { rb with end_ := i1 }
  else if (rb.size + SIZE_RANGE - rb.end_) % SIZE_RANGE < rb.size / 4 then
    if (rb.end_ : Int) - i2 > (i2 : Int) - i1 then
      .ok { rb with mem := memmove rb.mem i1 i2 (rb.end_ - i2) }
    else do
      let m ← memcpy rb.size rb.mem i1 rb.cursor (rb.end_ - rb.cursor)
      pure { rb with mem := m }
  else .ok rb

/-- The overload `free(const char* i1, const char* i2)`; `none` is the null pointer. -/
def read_buffer.free_ptr (rb : read_buffer) (i1 i2 : Option Nat) : Res read_buffer :=
  match i1, i2 with
  | some a, some b =>
    if a ≤ rb.size - 1 ∧ b ≤ rb.size - 1 then rb.free a b else .fault .assertion
  | _, _ => .fault .assertion

/-- The method `reset()`. -/
def read_buffer.reset (rb : read_buffer) : Res read_buffer :=
  if ¬ (rb.cursor ≤ rb.end_) then .fault .assertion
  else if rb.cursor = rb.end_ then .ok { rb with cursor := 0, end_ := 0 }
  else if rb.cursor > rb.end_ - rb.cursor then
    .ok { rb with mem := memmove rb.mem 0 rb.cursor (rb.end_ - rb.cursor),
                  end_ := rb.end_ - rb.cursor, cursor := 0 }
  else do
    let m ← memcpy rb.size rb.mem 0 rb.cursor (rb.end_ - rb.cursor)
    pure { rb with mem := m, end_ := rb.end_ - rb.cursor, cursor := 0 }

/-- A `std::string_view` into the read buffer. -/
structure string_view where
  data : Nat
  size : Nat
  deriving DecidableEq, Repr

/-- The overload `free(const std::string_view& str)`. -/
def read_buffer.free_sv (rb : read_buffer) (str : string_view) : Res read_buffer :=
  rb.free_ptr (some str.data) (some (str.data + str.size))

/-- The method `read_more(read, size)`; `size = -1` asks for all the room left.
Returns the count received (0 on error), the buffer and the socket. -/
def read_buffer.read_more (rb : read_buffer) (s : Sock) (size : Int) :
    Nat × read_buffer × Sock :=
  if rb.size = rb.end_ ∧ rb.size > 10 * 1024 * 1024 then (0, rb, s)
  else
    let rb1 : read_buffer :=
      if rb.size = rb.end_ then
        { rb with size := rb.size * 2, mem := fun i => if i < rb.size then rb.mem i else 0 }
      else rb
    let n : Nat := if size = -1 then rb1.size - rb1.end_ else size.toNat
    let r := sock_read s n
    if r.1.length = 0 then (0, rb1, r.2)
    else (r.1.length,
          { rb1 with mem := store rb1.mem rb1.end_ r.1, end_ := rb1.end_ + r.1.length }, r.2)

/-- The call `strlen(p)` on buffer memory; running off the buffer is undefined. -/
def strlen (size : Nat) (mem : Nat → Nat) : Nat → Nat → Res Nat
  | 0, _ => .fault .undefined
  | fuel + 1, p =>
    if size ≤ p then .fault .undefined
    else if mem p = 0 then .ok 0
    else do
      let n ← strlen size mem fuel (p + 1)
      pure (n + 1)

/-- The method `read_more_str(read)`: the view is built from a bare `char*`, so its length
is that of the zero-terminated string found at `end - l`. -/
def read_buffer.read_more_str (rb : read_buffer) (s : Sock) :
    Res (string_view × read_buffer × Sock) :=
  let r := rb.read_more s (-1)
  let rb1 := r.2.1
  let p := rb1.end_ - r.1
  do
    let n ← strlen rb1.size rb1.mem (rb1.size + 1 - p) p
    pure ({ data := p, size := n }, rb1, r.2.2)

/-- The loop `while (current_size < size) current_size += read_more(read)` of `read_n`. -/
def read_n_loop (size : Int) : Nat → Int → read_buffer → Sock → Res (read_buffer × Sock)
  | 0, _, _, _ => .fault .fuel
  | fuel + 1, current_size, rb, s =>
    if current_size < size then
      let r := rb.read_more s (-1)
      read_n_loop size fuel (current_size + r.1) r.2.1 r.2.2
    else .ok (rb, s)

/-- The method `read_n(read, start, size)`. -/
def read_buffer.read_n (fuel : Nat) (rb : read_buffer) (s : Sock) (start : Nat) (size : Int) :
    Res (string_view × read_buffer × Sock) :=
  let str_start : Int := start
  let str_end : Int := size + str_start
  if (rb.end_ : Int) < str_end then do
    let r ← read_n_loop size fuel ((rb.end_ : Int) - str_start) rb s
    pure ({ data := start, size := (size % (SIZE_RANGE : Int)).toNat }, r.1, r.2)
  else .ok ({ data := start, size := (size % (SIZE_RANGE : Int)).toNat }, rb, s)

/-- The inner loop `while (str_end < buffer_end and *str_end != delimiter) str_end++`. -/
def scan_until (mem : Nat → Nat) (delimiter : Nat) : Nat → Nat → Nat
  | 0, p => p
  | n + 1, p => if mem p ≠ delimiter then scan_until mem delimiter n (p + 1) else p

/-- The outer loop of `read_until`. -/
def read_until_loop (delimiter : Nat) : Nat → Nat → read_buffer → Sock → Res (Nat × read_buffer × Sock)
  | 0, _, _, _ => .fault .fuel
  | fuel + 1, str_end, rb, s =>
    let e := scan_until rb.mem delimiter (rb.end_ - str_end) str_end
    if rb.mem e = delimiter then .ok (e, rb, s)
    else
      let r := rb.read_more s (-1)
      if r.1 = 0 then .ok (e, r.2.1, r.2.2)
      else read_until_loop delimiter fuel e r.2.1 r.2.2

/-- The method `read_until(read, start, delimiter)`: the view before the delimiter, the
advanced `start`, the buffer and the socket. -/
def read_buffer.read_until (fuel : Nat) (rb : read_buffer) (s : Sock) (start delimiter : Nat) :
    Res (string_view × Nat × read_buffer × Sock) := do
  let r ← read_until_loop delimiter fuel start rb s
  pure ({ data := start, size := r.1 - start }, r.1 + 1, r.2.1, r.2.2)

/-! ## `output_buffer` -/

/-- The struct `output_buffer`: the slab's capacity and the bytes in `[buffer_, cursor_)`. -/
structure output_buffer where
  capacity : Nat
  content : List Nat

/-- The constructor `output_buffer(buffer, capacity)`. -/
def output_buffer.new (capacity : Nat) : output_buffer :=
  { capacity := capacity, content := [] }

/-- The method `reset()`. -/
def output_buffer.reset (o : output_buffer) : output_buffer :=
  { o with content := [] }

/-- The overload `operator<<(std::string_view s)`, with its
`assert(cursor_ + s.size() < end_)`. -/
def output_buffer.put (o : output_buffer) (s : List Nat) : Res output_buffer :=
  if o.content.length + s.length < o.capacity then .ok { o with content := o.content ++ s }
  else .fault .assertion

/-- The overload `operator<<(char v)`: no assertion; a store past the slab is undefined. -/
def output_buffer.put_char (o : output_buffer) (v : Nat) : Res output_buffer :=
  if o.content.length < o.capacity then .ok { o with content := o.content ++ [v] }
  else .fault .undefined

/-- Decimal digits of a number, what `boost::lexical_cast` writes for an integer. -/
def decimal (n : Nat) : List Nat := (Nat.toDigits 10 n).map Char.toNat

/-- The template `operator<<(I v)` at an integer: decimal digits through the `string_view`
overload. -/
def output_buffer.put_int (o : output_buffer) (v : Nat) : Res output_buffer :=
  o.put (decimal v)

/-- The template `operator<<(I v)` at a `const char*` (string literals and `status_` select
it): the text goes through a `std::array<char, 50>`, which holds at most 49 characters. -/
def output_buffer.put_cstr (o : output_buffer) (s : List Nat) : Res output_buffer :=
  if s.length < 50 then o.put s else .fault .thrown

/-- The method `to_string_view()`. -/
def output_buffer.to_string_view (o : output_buffer) : List Nat := o.content

/-! ## `http_ctx` -/

/-- An `unordered_map<string_view, string_view>`: keys by content. -/
abbrev sv_map := List (List Nat × string_view)

/-- The lookup part of `operator[]`: the stored value, or a default view. -/
def map_get (m : sv_map) (k : List Nat) : string_view :=
  match m with
  | [] => { data := 0, size := 0 }
  | (k1, v) :: rest => if k1 = k then v else map_get rest k

/-- The assignment `m[k] = v`. -/
def map_set (m : sv_map) (k : List Nat) (v : string_view) : sv_map :=
  match m with
  | [] => [(k, v)]
  | (k1, v1) :: rest => if k1 = k then (k, v) :: rest else (k1, v1) :: map_set rest k v

/-- The struct `http_ctx`, with the read buffer it refers to, the socket behind `read`, the
scripted results of `writev`, the bytes handed to `write` and `writev`, and the value the
injected `write` closure returns. -/
structure http_ctx where
  rb : read_buffer
  sock : Sock
  written : List (List Nat)
  write_returns : Bool
  writev_script : List (Int × Bool)
  gathered : List (List Nat)
  date_buf : List Nat
  status_ : List Nat
  method_ : string_view
  url_ : string_view
  http_version_ : string_view
  content_type_ : string_view
  chunked_ : Bool
  content_length_ : Int
  header_map : sv_map
  cookie_map : sv_map
  get_parameters_map : sv_map
  post_parameters_map : sv_map
  get_parameters_string_ : Option string_view
  is_body_read_ : Bool
  body_ : string_view
  body_start : string_view
  body_end_ : Option Nat
  header_lines : List Nat
  headers_stream : output_buffer
  response_written_ : Bool

/-- The constructor `http_ctx(rb, read, write, listen_to_new_fd)`. -/
def http_ctx.new (rb : read_buffer) (sock : Sock) (date : List Nat) : http_ctx :=
  { rb := rb, sock := sock, written := [], write_returns := true, writev_script := [],
    gathered := [],
    date_buf := date, status_ := bytes "200 OK",
    method_ := ⟨0, 0⟩, url_ := ⟨0, 0⟩, http_version_ := ⟨0, 0⟩, content_type_ := ⟨0, 0⟩,
    chunked_ := false, content_length_ := 0,
    header_map := [], cookie_map := [], get_parameters_map := [], post_parameters_map := [],
    get_parameters_string_ := none, is_body_read_ := false,
    body_ := ⟨0, 0⟩, body_start := ⟨0, 0⟩, body_end_ := none,
    header_lines := [], headers_stream := output_buffer.new 1000, response_written_ := false }

/-- The call `write(data, size)` of the injected closure: the bytes handed over are noted and
the closure's `bool` is returned. -/
def http_ctx.write (c : http_ctx) (m : List Nat) : Bool × http_ctx :=
  (c.write_returns, { c with written := c.written ++ [m] })

/-- The field `header_lines_size`. -/
def http_ctx.header_lines_size (c : http_ctx) : Nat := c.header_lines.length

/-- The first loop of `split`: `while (start < (line_end-1) and *start == split_char) start++`. -/
def skip_eq (mem : Nat → Nat) (ch : Nat) : Nat → Nat → Nat
  | 0, p => p
  | n + 1, p => if mem p = ch then skip_eq mem ch n (p + 1) else p

/-- The method `split(cur, line_end, split_char)`: the token and the advanced `cur`. -/
def split (mem : Nat → Nat) (cur line_end split_char : Nat) : string_view × Nat :=
  let start := skip_eq mem split_char (line_end - 1 - cur) cur
  let e := scan_until mem split_char (line_end - 1 - (start + 1)) (start + 1)
  if mem e = split_char then ({ data := start, size := e + 1 - start - 1 }, e + 1)
  else ({ data := start, size := e + 1 - start }, e + 1)

/-- The method `parse_first_line()`. -/
def http_ctx.parse_first_line (c : http_ctx) : http_ctx :=
  let e0 := c.header_lines.getD 1 0
  let r1 := split c.rb.mem (c.header_lines.getD 0 0) e0 SP
  let r2 := split c.rb.mem r1.2 e0 SP
  let r3 := split c.rb.mem r2.2 e0 CR
  let eu := r2.1.data + r2.1.size
  let r4 := split c.rb.mem r2.1.data eu 63
  { c with
    method_ := r1.1, url_ := r4.1, http_version_ := r3.1,
    get_parameters_string_ :=
      some { data := r4.2, size := (((eu : Int) - (r4.2 : Int)) % (SIZE_RANGE : Int)).toNat } }

/-- The accessor `url()`. -/
def http_ctx.url (c : http_ctx) : string_view × http_ctx :=
  let c1 := if c.url_.size = 0 then c.parse_first_line else c
  (c1.url_, c1)

/-- The accessor `method()`. -/
def http_ctx.method (c : http_ctx) : string_view × http_ctx :=
  let c1 := if c.method_.size = 0 then c.parse_first_line else c
  (c1.method_, c1)

/-- The accessor `http_version()`. -/
def http_ctx.http_version (c : http_ctx) : string_view × http_ctx :=
  let c1 := if c.url_.size = 0 then c.parse_first_line else c
  (c1.http_version_, c1)

/-- The accessor `get_parameters_string()`. -/
def http_ctx.get_parameters_string (c : http_ctx) : string_view × http_ctx :=
  match c.get_parameters_string_ with
  | some v => (v, c)
  | none =>
    let c1 := c.parse_first_line
    (c1.get_parameters_string_.getD ⟨0, 0⟩, c1)

/-- The loop `while (c < end)` of `url_decode_parameters(content, kv_callback)`, with the
callback `map[key] = value`; every round moves `c` forward. -/
def url_decode_parameters_loop (mem : Nat → Nat) (end_ : Nat) : Nat → Nat → sv_map → sv_map
  | 0, _, m => m
  | n + 1, c, m =>
    if c < end_ then
      let key := split mem c end_ 61
      let value := split mem key.2 end_ 38
      url_decode_parameters_loop mem end_ n value.2
        (map_set m (load mem key.1.data key.1.size) value.1)
    else m

/-- The method `url_decode_parameters(content, kv_callback)` with a callback that stores the
pair in the map `m`. -/
def url_decode_parameters (mem : Nat → Nat) (content : string_view) (m : sv_map) : sv_map :=
  url_decode_parameters_loop mem (content.data + content.size) content.size content.data m

/-- The method `get_parameter(key)`; `operator[]` leaves a default entry for an absent key.
Nothing in the source stores into `get_parameters_map`. -/
def http_ctx.get_parameter (c : http_ctx) (key : List Nat) : string_view × http_ctx :=
  let c1 := if c.url_.size = 0 then c.parse_first_line else c
  let v := map_get c1.get_parameters_map key
  (v, { c1 with get_parameters_map := map_set c1.get_parameters_map key v })

/-- The loop `while (value[0] == ' ') value = std::string_view(value.data() + 1,
value.size() - 1)`; reading past the buffer is undefined. -/
def strip_spaces (size : Nat) (mem : Nat → Nat) : Nat → string_view → Res string_view
  | 0, _ => .fault .undefined
  | n + 1, v =>
    if size ≤ v.data then .fault .undefined
    else if mem v.data = SP then
      strip_spaces size mem n
        { data := v.data + 1, size := (v.size + SIZE_RANGE - 1) % SIZE_RANGE }
    else .ok v

/-- Body of the loop of `index_headers()` for the lines with the given indices. -/
def index_headers_loop (size : Nat) (mem : Nat → Nat) (lines : List Nat) :
    List Nat → sv_map → Res sv_map
  | [], m => .ok m
  | i :: rest, m =>
    let line_end := lines.getD (i + 1) 0
    let k := split mem (lines.getD i 0) line_end 58
    let v := split mem k.2 line_end CR
    do
      let value ← strip_spaces size mem (size + 1 - v.1.data) v.1
      index_headers_loop size mem lines rest (map_set m (load mem k.1.data k.1.size) value)

/-- The method `index_headers()`. -/
def http_ctx.index_headers (c : http_ctx) : Res http_ctx := do
  let m ← index_headers_loop c.rb.size c.rb.mem c.header_lines
    (List.range' 1 (c.header_lines_size - 2)) c.header_map
  pure { c with header_map := m }

/-- The accessor `header(key)`; `operator[]` leaves a default entry for an absent key. -/
def http_ctx.header (c : http_ctx) (key : List Nat) : Res (string_view × http_ctx) := do
  let c1 ← if c.header_map.length = 0 then c.index_headers else pure c
  let v := map_get c1.header_map key
  pure (v, { c1 with header_map := map_set c1.header_map key v })

/-- The predicate `isspace` of the C locale. -/
def isspace (c : Nat) : Bool := c = 32 || (9 ≤ c && c ≤ 13)

/-- Value of a digit in the given base, if it is one. -/
def digit_value (base c : Nat) : Option Nat :=
  let v : Option Nat :=
    if 48 ≤ c ∧ c ≤ 57 then some (c - 48)
    else if 97 ≤ c ∧ c ≤ 122 then some (c - 97 + 10)
    else if 65 ≤ c ∧ c ≤ 90 then some (c - 65 + 10)
    else none
  match v with
  | some d => if d < base then some d else none
  | none => none

/-- Skipping of leading white space by `atoi` and `strtol`; leaving the buffer is undefined. -/
def skip_space (size : Nat) (mem : Nat → Nat) : Nat → Nat → Res Nat
  | 0, _ => .fault .undefined
  | n + 1, p =>
    if size ≤ p then .fault .undefined
    else if isspace (mem p) then skip_space size mem n (p + 1)
    else .ok p

/-- Accumulation of the digits found from `p` on; leaving the buffer is undefined. -/
def read_digits (base size : Nat) (mem : Nat → Nat) : Nat → Nat → Nat → Res Nat
  | 0, _, _ => .fault .undefined
  | n + 1, p, acc =>
    if size ≤ p then .fault .undefined
    else
      match digit_value base (mem p) with
      | some d => read_digits base size mem n (p + 1) (acc * base + d)
      | none => .ok acc

/-- The call `strtol(p, nullptr, base)` for base 10 or 16 (`atoi(p)` is base 10) on buffer
memory: white space, an optional sign, for base 16 an optional `0x`, then digits; the
value saturates at the range of `long`. -/
def strtol (size : Nat) (mem : Nat → Nat) (p base : Nat) : Res Int := do
  let p1 ← skip_space size mem (size + 1 - p) p
  let neg : Bool := mem p1 = 45
  let p2 := if mem p1 = 45 ∨ mem p1 = 43 then p1 + 1 else p1
  let p3 :=
    if base = 16 ∧ mem p2 = 48 ∧ (mem (p2 + 1) = 120 ∨ mem (p2 + 1) = 88)
        ∧ (digit_value 16 (mem (p2 + 2))).isSome then p2 + 2
    else p2
  let v ← read_digits base size mem (size + 1 - p3) p3 0
  pure (if neg then max (- (v : Int)) (-(2 ^ 63)) else min (v : Int) (2 ^ 63 - 1))

/-- Conversion of a `long` or `size_t` value to `int`. -/
def to_int (v : Int) : Int := (v + 2 ^ 31) % 2 ^ 32 - 2 ^ 31

/-- The call `atoi(p)`. -/
def atoi (size : Nat) (mem : Nat → Nat) (p : Nat) : Res Int :=
  Res.view to_int (strtol size mem p 10)

/-- The initialisation `int chunked_size = strtol(p, nullptr, 16)`. -/
def chunk_size_at (size : Nat) (mem : Nat → Nat) (p : Nat) : Res Int :=
  Res.view to_int (strtol size mem p 16)

/-- Comparison of a view with a string literal. -/
def sv_eq (mem : Nat → Nat) (v : string_view) (lit : List Nat) : Bool :=
  v.size = lit.length && load mem v.data lit.length = lit

/-- The lambda `get_value` of `prepare_request()`. -/
def get_value (size : Nat) (mem : Nat → Nat) (cur line_end : Nat) : Res string_view :=
  let v := split mem cur line_end CR
  strip_spaces size mem (size + 1 - v.1.data) v.1

/-- Body of the loop of `prepare_request()` for the lines with the given indices. -/
def prepare_request_loop : List Nat → http_ctx → Res http_ctx
  | [], c => .ok c
  | i :: rest, c =>
    let line_end := c.header_lines.getD (i + 1) 0
    let cur := c.header_lines.getD i 0
    if c.rb.mem cur ≠ 67 ∧ c.rb.mem cur ≠ 99 then prepare_request_loop rest c
    else
      let k := split c.rb.mem cur line_end 58
      if sv_eq c.rb.mem k.1 (bytes "Content-Length") then do
        let v ← get_value c.rb.size c.rb.mem k.2 line_end
        let n ← atoi c.rb.size c.rb.mem v.data
        prepare_request_loop rest { c with content_length_ := n }
      else if sv_eq c.rb.mem k.1 (bytes "Content-Type") then do
        let v ← get_value c.rb.size c.rb.mem k.2 line_end
        prepare_request_loop rest
          { c with content_type_ := v, chunked_ := sv_eq c.rb.mem v (bytes "chunked") }
      else prepare_request_loop rest c

/-- The method `prepare_request()`. -/
def http_ctx.prepare_request (c : http_ctx) : Res http_ctx :=
  prepare_request_loop (List.range' 1 (c.header_lines_size - 2))
    { c with content_length_ := 0, chunked_ := false }

/-- The method `format_top_headers(output_stream)`. -/
def http_ctx.format_top_headers (c : http_ctx) (o : output_buffer) : Res output_buffer := do
  let o ← o.put_cstr (bytes "HTTP/1.1 ")
  let o ← o.put_cstr c.status_
  let o ← o.put_cstr (bytes "\r\n")
  let o ← o.put_cstr (bytes "Date: ")
  let o ← o.put c.date_buf
  let o ← o.put_cstr (bytes "\r\n")
  o.put_cstr (bytes "Connection: keep-alive\r\nServer: Moustique\r\n")

/-- The `do ... while` around `writev` in `respond`: each scripted result is the value
returned and whether `errno` is `EAGAIN`; `total_size` counts the first `iovec` only. -/
def writev_loop (total_size : Int) (m s : List Nat) : List (Int × Bool) → http_ctx → Res http_ctx
  | [], _ => .fault .fuel
  | (ret, eagain) :: rest, c =>
    let c1 : http_ctx :=
      { c with writev_script := rest, gathered := c.gathered ++ [(m ++ s).take ret.toNat] }
    let c2 : http_ctx :=
      if ret = -1 ∧ eagain then (c1.write []).2 else c1
    if ¬ (ret < 0 ∨ ret = total_size) then .fault .assertion
    else if ret = -1 ∧ eagain then writev_loop total_size m s rest c2
    else .ok c2

/-- The method `respond(s)`. -/
def http_ctx.respond (c : http_ctx) (s : List Nat) : Res http_ctx := do
  let c : http_ctx := { c with response_written_ := true }
  let o := output_buffer.new 10200
  if s.length > 10000 then do
    let o ← c.format_top_headers o
    let o ← o.put c.headers_stream.to_string_view
    let o ← o.put_cstr (bytes "Content-Length: ")
    let o ← o.put_int s.length
    let o ← o.put_cstr (bytes "\r\n\r\n")
    writev_loop o.to_string_view.length o.to_string_view s c.writev_script c
  else do
    let o ← c.format_top_headers o
    let o ← o.put c.headers_stream.to_string_view
    let o ← o.put_cstr (bytes "Content-Length: ")
    let o ← o.put_int s.length
    let o ← o.put_cstr (bytes "\r\n\r\n")
    let o ← o.put s
    pure (c.write o.to_string_view).2

/-- The method `respond_if_needed()`. -/
def http_ctx.respond_if_needed (c : http_ctx) : Res http_ctx :=
  let o := output_buffer.new 10200
  if ¬ c.response_written_ then do
    let c : http_ctx := { c with response_written_ := true }
    let o ← c.format_top_headers o
    let o ← o.put c.headers_stream.to_string_view
    let o ← o.put_cstr (bytes "Content-Length: 0\r\n\r\n")
    pure (c.write o.to_string_view).2
  else .ok c

/-- The method `set_header(k, v)`. -/
def http_ctx.set_header (c : http_ctx) (k v : List Nat) : Res http_ctx := do
  let o ← c.headers_stream.put k
  let o ← o.put_cstr (bytes ": ")
  let o ← o.put v
  let o ← o.put_cstr (bytes "\r\n")
  pure { c with headers_stream := o }

/-- The method `set_cookie(k, v)`. -/
def http_ctx.set_cookie (c : http_ctx) (k v : List Nat) : Res http_ctx := do
  let o ← c.headers_stream.put_cstr (bytes "Set-Cookie: ")
  let o ← o.put k
  let o ← o.put_char 61
  let o ← o.put v
  let o ← o.put_cstr (bytes "\r\n")
  pure { c with headers_stream := o }

/-- The table of `set_status(status)`. -/
def status_text (status : Int) : List Nat :=
  if status = 200 then bytes "200 OK"
  else if status = 201 then bytes "201 Created"
  else if status = 204 then bytes "204 No Content"
  else if status = 304 then bytes "304 Not Modified"
  else if status = 400 then bytes "400 Bad Request"
  else if status = 401 then bytes "401 Unauthorized"
  else if status = 402 then bytes "402 Not Found"
  else if status = 403 then bytes "403 Forbidden"
  else if status = 404 then bytes "404 Not Found"
  else if status = 409 then bytes "409 Conflict"
  else if status = 500 then bytes "500 Internal Server Error"
  else bytes "200 OK"

/-- The method `set_status(status)`. -/
def http_ctx.set_status (c : http_ctx) (status : Int) : http_ctx :=
  { c with status_ := status_text status }

/-! ## Reading the body -/

/-- The `while (content_length_ > n_body_read)` loop of `read_body`; `d` collects the
contents of the views handed to the callback. -/
def read_body_length_loop : Nat → Int → List (List Nat) → http_ctx →
    Res (List (List Nat) × http_ctx)
  | 0, _, _, _ => .fault .fuel
  | fuel + 1, n_body_read, d, c =>
    if c.content_length_ > n_body_read then do
      let r ← c.rb.read_more_str c.sock
      let l : Int := to_int r.1.size
      let bl : Int := min l (c.content_length_ - n_body_read)
      let part : string_view := { data := r.1.data, size := (bl % (SIZE_RANGE : Int)).toNat }
      let d1 := d ++ [load r.2.1.mem part.data part.size]
      let rb ← r.2.1.free_sv part
      read_body_length_loop fuel (n_body_read + part.size) d1
        { c with rb := rb, sock := r.2.2, body_end_ := some part.data }
    else .ok (d, c)

/-- The `while (chunked_size > 0)` loop of `read_body`. -/
def read_body_chunk_loop (k : Nat) : Nat → Int → Nat → List (List Nat) → http_ctx →
    Res (Nat × List (List Nat) × http_ctx)
  | 0, _, _, _, _ => .fault .fuel
  | fuel + 1, chunked_size, cur, d, c =>
    if chunked_size > 0 then do
      let r ← c.rb.read_n k c.sock cur chunked_size
      let d1 := d ++ [load r.2.1.mem r.1.data r.1.size]
      let rb ← r.2.1.free_sv r.1
      let cur1 := cur + chunked_size.toNat + 2
      let u ← rb.read_until k r.2.2 cur1 CR
      let n ← chunk_size_at u.2.2.1.size u.2.2.1.mem u.1.data
      read_body_chunk_loop k fuel n (u.2.1 + 1) d1 { c with rb := u.2.2.1, sock := u.2.2.2 }
    else .ok (cur, d, c)

/-- The method `read_body(callback)`: the contents handed to the callback, in order, and the
context afterwards. -/
def http_ctx.read_body (fuel : Nat) (c : http_ctx) : Res (List (List Nat) × http_ctx) :=
  let c : http_ctx := { c with is_body_read_ := true }
  if ¬ c.chunked_ ∧ c.content_length_ = 0 then
    .ok ([], { c with body_end_ := some c.body_start.data })
  else if c.content_length_ ≠ 0 then
    let l : Int := min (to_int c.body_start.size) c.content_length_
    let first : string_view :=
      { data := c.body_start.data, size := (l % (SIZE_RANGE : Int)).toNat }
    read_body_length_loop fuel l [load c.rb.mem first.data first.size] c
  else do
    let u ← c.rb.read_until fuel c.sock c.body_start.data CR
    let n ← chunk_size_at u.2.2.1.size u.2.2.1.mem u.1.data
    let r ← read_body_chunk_loop fuel fuel n (u.2.1 + 1) []
      { c with rb := u.2.2.1, sock := u.2.2.2 }
    let cur := r.1 + 2
    pure (r.2.1, { r.2.2 with
      body_end_ := some cur,
      body_ := { data := c.body_start.data, size := cur - c.body_start.data } })

/-- The `while (chunked_size > 0)` loop of `read_whole_body`; `out` is where the next
payload goes. -/
def read_whole_body_chunk_loop (k : Nat) : Nat → Int → Nat → Nat → http_ctx →
    Res (Nat × Nat × http_ctx)
  | 0, _, _, _, _ => .fault .fuel
  | fuel + 1, chunked_size, cur, out, c =>
    if chunked_size > 0 then do
      let r ← c.rb.read_n k c.sock cur chunked_size
      let chunk := r.1
      let cur1 := cur + chunked_size.toNat + 2
      let m ←
        if out + chunk.size > chunk.data then
          (pure (memmove r.2.1.mem out chunk.data chunk.size) : Res (Nat → Nat))
        else memcpy r.2.1.size r.2.1.mem out chunk.data chunk.size
      let rb : read_buffer := { r.2.1 with mem := m }
      let u ← rb.read_until k r.2.2 cur1 CR
      let n ← chunk_size_at u.2.2.1.size u.2.2.1.mem u.1.data
      read_whole_body_chunk_loop k fuel n (u.2.1 + 1) (out + chunk.size)
        { c with rb := u.2.2.1, sock := u.2.2.2 }
    else .ok (cur, out, c)

/-- The method `read_whole_body()`. -/
def http_ctx.read_whole_body (fuel : Nat) (c : http_ctx) : Res (string_view × http_ctx) :=
  if ¬ c.chunked_ ∧ c.content_length_ = 0 then
    .ok (⟨0, 0⟩, { c with is_body_read_ := true, body_end_ := some c.body_start.data })
  else if c.content_length_ ≠ 0 then do
    let r ← c.rb.read_n fuel c.sock c.body_start.data c.content_length_
    let c1 : http_ctx :=
      { c with rb := r.2.1, sock := r.2.2, body_ := r.1,
               body_end_ := some (((r.1.data : Int) + c.content_length_).toNat),
               is_body_read_ := true }
    pure (c1.body_, c1)
  else do
    let u ← c.rb.read_until fuel c.sock c.body_start.data CR
    let n ← chunk_size_at u.2.2.1.size u.2.2.1.mem u.1.data
    let r ← read_whole_body_chunk_loop fuel fuel n (u.2.1 + 1) c.body_start.data
      { c with rb := u.2.2.1, sock := u.2.2.2 }
    let c1 : http_ctx :=
      { r.2.2 with
        body_end_ := some (r.1 + 2),
        body_ := { data := c.body_start.data, size := r.2.1 - c.body_start.data },
        is_body_read_ := true }
    pure (c1.body_, c1)

/-- The method `prepare_next_request()`. -/
def http_ctx.prepare_next_request (fuel : Nat) (c : http_ctx) : Res http_ctx := do
  let c1 ← if ¬ c.is_body_read_ then Res.view (fun r => r.2) (c.read_whole_body fuel) else pure c
  let rb ← c1.rb.free_ptr (some (c1.header_lines.getD 0 0)) c1.body_end_
  pure { c1 with
    rb := rb, headers_stream := c1.headers_stream.reset, status_ := bytes "200 OK",
    method_ := ⟨0, 0⟩, url_ := ⟨0, 0⟩, http_version_ := ⟨0, 0⟩, content_type_ := ⟨0, 0⟩,
    header_map := [], cookie_map := [], get_parameters_map := [], post_parameters_map := [],
    get_parameters_string_ := none, response_written_ := false }

/-- The method `post_parameters()`: the map returned and the context afterwards. -/
def http_ctx.post_parameters (fuel : Nat) (c : http_ctx) : Res (sv_map × http_ctx) :=
  if sv_eq c.rb.mem c.content_type_ (bytes "application/x-www-form-urlencoded") then do
    let c1 ← if ¬ c.is_body_read_ then Res.view (fun r => r.2) (c.read_whole_body fuel) else pure c
    let m := url_decode_parameters c1.rb.mem c1.body_ c1.post_parameters_map
    pure (m, { c1 with post_parameters_map := m })
  else .ok (c.post_parameters_map, c)

/-! ## The connection processor -/

/-- Where the header scan of `make_http_processor` stands. -/
structure header_scan where
  header_end : Nat
  header_lines : List Nat
  complete_header : Bool
  deriving DecidableEq, Repr

/-- The loop `while (header_end < rb.end - 3)`; `add_header_line` stores past the 100 slots
of `header_lines` when they are all taken, which is undefined. -/
def scan_header (mem : Nat → Nat) (end_ : Nat) : Nat → Nat → List Nat → Res header_scan
  | 0, header_end, lines => .ok ⟨header_end, lines, false⟩
  | n + 1, header_end, lines =>
    if header_end + 3 < end_ then
      if mem header_end = CR ∧ mem (header_end + 1) = LF then
        if 100 ≤ lines.length then .fault .undefined
        else if mem (header_end + 2) = CR ∧ mem (header_end + 3) = LF then
          .ok ⟨header_end + 4, lines ++ [header_end + 2], true⟩
        else scan_header mem end_ n (header_end + 2) (lines ++ [header_end + 2])
      else scan_header mem end_ n (header_end + 1) lines
    else .ok ⟨header_end, lines, false⟩

/-- The loop `while (!complete_header)`: the scan state when it ends, with the buffer and
the socket; `complete_header` is false when `read_more` returned 0 and the processor
returns. -/
def read_header : Nat → read_buffer → Sock → Nat → List Nat →
    Res (header_scan × read_buffer × Sock)
  | 0, _, _, _, _ => .fault .fuel
  | fuel + 1, rb, s, header_end, lines =>
    let r := rb.read_more s (-1)
    if r.1 = 0 then .ok (⟨header_end, lines, false⟩, r.2.1, r.2.2)
    else
      match scan_header r.2.1.mem r.2.1.end_ (r.2.1.end_ - header_end) header_end lines with
      | .fault f => .fault f
      | .ok h =>
        if h.complete_header then .ok (h, r.2.1, r.2.2)
        else read_header fuel r.2.1 r.2.2 h.header_end h.header_lines

/-- The `while (true)` loop of the lambda returned by `make_http_processor(handler)`; the
handler carries a state of its own.  The result is the state at the `return`. -/
def http_processor_loop {σ : Type} (handler : σ → http_ctx → Res (σ × http_ctx)) (k : Nat) :
    Nat → σ → http_ctx → Res (σ × http_ctx)
  | 0, _, _ => .fault .fuel
  | fuel + 1, st, c =>
    let c0 : http_ctx := { c with is_body_read_ := false, header_lines := [c.rb.cursor] }
    match read_header k c0.rb c0.sock c0.rb.cursor c0.header_lines with
    | .fault f => .fault f
    | .ok (h, rb, s) =>
      if ¬ h.complete_header then .ok (st, { c0 with rb := rb, sock := s })
      else do
        let c1 : http_ctx :=
          { c0 with rb := rb, sock := s, header_lines := h.header_lines,
                    body_start := { data := h.header_end, size := rb.end_ - h.header_end } }
        let c2 ← c1.prepare_request
        let r ← handler st c2
        let c3 ← r.2.prepare_next_request k
        http_processor_loop handler k fuel r.1 c3

/-- One round of the `while (true)` loop up to the call of the handler: `true` with the
context handed to the handler, or `false` with the context at the `return`. -/
def next_request (k : Nat) (c : http_ctx) : Res (Bool × http_ctx) :=
  let c0 : http_ctx := { c with is_body_read_ := false, header_lines := [c.rb.cursor] }
  match read_header k c0.rb c0.sock c0.rb.cursor c0.header_lines with
  | .fault f => .fault f
  | .ok (h, rb, s) =>
    if ¬ h.complete_header then .ok (false, { c0 with rb := rb, sock := s })
    else do
      let c1 : http_ctx :=
        { c0 with rb := rb, sock := s, header_lines := h.header_lines,
                  body_start := { data := h.header_end, size := rb.end_ - h.header_end } }
      let c2 ← c1.prepare_request
      pure (true, c2)

/-- The lambda returned by `make_http_processor(handler)`, run on a new connection. -/
def make_http_processor {σ : Type} (handler : σ → http_ctx → Res (σ × http_ctx))
    (fuel : Nat) (st : σ) (sock : Sock) (date : List Nat) : Res (σ × http_ctx) :=
  http_processor_loop handler fuel fuel st (http_ctx.new read_buffer.new sock date)

/-! ## Handlers and inputs used in the worked runs -/

/-- A date string as the date thread formats it. -/
def sample_date : List Nat := bytes "Sun, 01 Nov 2026 10:00:00 GMT"

/-- A handler shaped like the lambda of `http_serve`: it asks for `method()` and `url()`,
notes the bytes of the URL it was given and ends with `respond_if_needed()`. -/
def url_handler (st : List (List Nat)) (c : http_ctx) : Res (List (List Nat) × http_ctx) := do
  let m := c.method
  let u := m.2.url
  let c1 ← u.2.respond_if_needed
  pure (st ++ [load c1.rb.mem u.1.data u.1.size], c1)

/-- A handler that notes the view returned by `get_parameters_string()`. -/
def query_handler (st : List string_view) (c : http_ctx) : Res (List string_view × http_ctx) := do
  let q := c.get_parameters_string
  let c1 ← q.2.respond_if_needed
  pure (st ++ [q.1], c1)

/-- A handler that streams the body with `read_body` and notes every slice its callback
receives. -/
def read_body_handler (st : List (List Nat)) (c : http_ctx) :
    Res (List (List Nat) × http_ctx) := do
  let r ← c.read_body 64
  let c1 ← r.2.respond_if_needed
  pure (st ++ r.1, c1)

/-- A handler that notes the bytes of the view `read_whole_body()` returns. -/
def read_whole_body_handler (st : List (List Nat)) (c : http_ctx) :
    Res (List (List Nat) × http_ctx) := do
  let r ← c.read_whole_body 64
  let c1 ← r.2.respond_if_needed
  pure (st ++ [load r.2.rb.mem r.1.data r.1.size], c1)

/-- A handler that notes the bytes of `post_parameters()[key]`. -/
def post_parameters_handler (key : List Nat) (st : List (List Nat)) (c : http_ctx) :
    Res (List (List Nat) × http_ctx) := do
  let r ← c.post_parameters 64
  let v := map_get r.1 key
  let c1 ← r.2.respond_if_needed
  pure (st ++ [load c1.rb.mem v.data v.size], c1)

/-- A handler that notes the bytes of `get_parameter(key)`. -/
def get_parameter_handler (key : List Nat) (st : List (List Nat)) (c : http_ctx) :
    Res (List (List Nat) × http_ctx) := do
  let r := c.get_parameter key
  let c1 ← r.2.respond_if_needed
  pure (st ++ [load c1.rb.mem r.1.data r.1.size], c1)

/-- A handler that consumes the body, with `read_whole_body()` or by streaming it with
`read_body`, and notes `body_end_`, `body_start.data()` and `rb.end` as they are then. -/
def body_end_handler (whole : Bool) (st : List (Option Nat × Nat × Nat)) (c : http_ctx) :
    Res (List (Option Nat × Nat × Nat) × http_ctx) := do
  let c1 ← if whole then Res.view (fun r => r.2) (c.read_whole_body 64)
    else Res.view (fun r => r.2) (c.read_body 64)
  let c2 ← c1.respond_if_needed
  pure (st ++ [(c1.body_end_, c1.body_start.data, c1.rb.end_)], c2)

/-- A handler that notes the `chunked_` flag and the `content_length_` it finds and the bytes
`read_whole_body()` returns. -/
def body_mode_handler (st : List (Bool × Int × List Nat)) (c : http_ctx) :
    Res (List (Bool × Int × List Nat) × http_ctx) := do
  let r ← c.read_whole_body 64
  let c1 ← r.2.respond_if_needed
  pure (st ++ [(c.chunked_, c.content_length_, load r.2.rb.mem r.1.data r.1.size)], c1)

/-- A request with `n` header lines `a: b`. -/
def request_with_headers (n : Nat) : List Nat :=
  bytes "GET / HTTP/1.1\r\n" ++ (List.replicate n (bytes "a: b\r\n")).flatten ++ bytes "\r\n"

/-! ## Statements about responses -/

/-- The bytes the specification gives for a response with status token `st`, date `d`,
header scratch `h` and body `s`. -/
def expected_response (st d h s : List Nat) : List Nat :=
  bytes "HTTP/1.1 " ++ st ++ bytes "\r\n" ++ bytes "Date: " ++ d ++ bytes "\r\n"
    ++ bytes "Connection: keep-alive\r\nServer: Moustique\r\n" ++ h
    ++ bytes "Content-Length: " ++ decimal s.length ++ bytes "\r\n\r\n" ++ s

/-- A call the handler makes to add a response header. -/
inductive header_op where
  | set_header (k v : List Nat)
  | set_cookie (k v : List Nat)

/-- The header line (without its CRLF) a call adds to the scratch. -/
def header_op.line : header_op → List Nat
  | .set_header k v => k ++ bytes ": " ++ v
  | .set_cookie k v => bytes "Set-Cookie: " ++ k ++ [61] ++ v

/-- The handler's `set_header` and `set_cookie` calls, in order. -/
def run_header_ops : List header_op → http_ctx → Res http_ctx
  | [], c => .ok c
  | .set_header k v :: rest, c => c.set_header k v >>= run_header_ops rest
  | .set_cookie k v :: rest, c => c.set_cookie k v >>= run_header_ops rest

/-- Pieces of a byte string between its CRLF separators; `cur` is the piece being read,
last byte first. -/
def crlf_lines_from : List Nat → List Nat → List (List Nat)
  | cur, [] => [cur.reverse]
  | cur, b :: rest =>
    if b = LF ∧ cur.head? = some CR then cur.tail.reverse :: crlf_lines_from [] rest
    else crlf_lines_from (b :: cur) rest

/-- Lines of a header block. -/
def crlf_lines (bs : List Nat) : List (List Nat) := crlf_lines_from [] bs

/-- Number of lines of a header block that begin with `name`. -/
def header_count (name head : List Nat) : Nat :=
  (crlf_lines head).countP (fun l => name.isPrefixOf l)

/-- What the specification asks of the bytes `out` of a response with status token `st` and
body `body`: they start with the status line, the part before the body ends with an empty
line and has one `Date:` line and one `Content-Length:` line, and that line gives the length
of the body. -/
def response_shape (st body out : List Nat) : Prop :=
  (∃ t, out = bytes "HTTP/1.1 " ++ st ++ bytes "\r\n" ++ t)
  ∧ ∃ head, out = head ++ bytes "\r\n\r\n" ++ body
      ∧ header_count (bytes "Date:") (head ++ bytes "\r\n\r\n") = 1
      ∧ header_count (bytes "Content-Length:") (head ++ bytes "\r\n\r\n") = 1
      ∧ (bytes "Content-Length: " ++ decimal body.length) ∈ crlf_lines (head ++ bytes "\r\n\r\n")

/-! ## Contexts used in the worked instances -/

/-- The context of a new connection once `req` has been read into the buffer and its header
lines have been noted at the offsets `lines`. -/
def request_ctx (req : List Nat) (lines : List Nat) : http_ctx :=
  { http_ctx.new
      { read_buffer.new with mem := store (fun _ => 0) 0 req, end_ := req.length } []
      sample_date with
    header_lines := lines }

/-! ## Statements about request headers -/

/-- The buffer `read_more` reads into: doubled when it is full. -/
def read_buffer.grown (rb : read_buffer) : read_buffer :=
  if rb.size = rb.end_ then
    { rb with size := rb.size * 2, mem := fun i => if i < rb.size then rb.mem i else 0 }
  else rb

/-- The buffer once `bs` has been received at `end`. -/
def read_buffer.received (rb : read_buffer) (bs : List Nat) : read_buffer :=
  { rb with mem := store rb.mem rb.end_ bs, end_ := rb.end_ + bs.length }

/-- What `while (!complete_header)` does after a read, given the result of the scan. -/
def header_next (fuel : Nat) (rb : read_buffer) (s : Sock) (x : Res header_scan) :
    Res (header_scan × read_buffer × Sock) :=
  match x with
  | .fault f => .fault f
  | .ok h =>
    if h.complete_header then .ok (h, rb, s)
    else read_header fuel rb s h.header_end h.header_lines

/-- What the rest of the processor sees of the header read: the scan state and the buffer. -/
def header_read_view (r : header_scan × read_buffer × Sock) : header_scan × read_buffer :=
  (r.1, r.2.1)

/-- No CR LF CR LF in `m` that starts at `lo` or later and ends before offset `hi`. -/
def no_early_terminator (m : Nat → Nat) (lo hi : Nat) : Prop :=
  ∀ i, lo ≤ i → i + 4 < hi →
    ¬ (m i = CR ∧ m (i + 1) = LF ∧ m (i + 2) = CR ∧ m (i + 3) = LF)

/-- What the handler is given to see of a request: `method()`, `url()`, `http_version()` and
`header(key)`, as views, on the context the processor sets up after the header read. -/
def request_view (key : List Nat) (v : header_scan × read_buffer) :
    string_view × string_view × string_view × Res string_view :=
  let c : http_ctx :=
    { http_ctx.new v.2 [] sample_date with
      header_lines := v.1.header_lines,
      body_start := { data := v.1.header_end, size := v.2.end_ - v.1.header_end } }
  (c.method.1, c.url.1, c.http_version.1, Res.view (fun x => x.1) (c.header key))

/-- The header block of a request, handed over one byte at a time. -/
def byte_by_byte (block : List Nat) : Sock := block.map (fun b => [b])


/-! ## Statements about the read buffer -/

/-- A new buffer after one `read_more` call that received `bs`. -/
def read_buffer.holding (bs : List Nat) : read_buffer :=
  (read_buffer.new.read_more [bs] (-1)).2.1

/-- The buffer after a sequence of `read_more(read, size)` calls, each with the socket state
its `read` finds. -/
def read_more_calls (rb : read_buffer) : List (Sock × Int) → read_buffer
  | [] => rb
  | (s, size) :: rest => read_more_calls (rb.read_more s size).2.1 rest

@[simp] theorem Res.ok_bind {α β : Type} (a : α) (f : α → Res β) : (Res.ok a >>= f) = f a := rfl

@[simp] theorem Res.fault_bind {α β : Type} (e : Fault) (f : α → Res β) :
    ((Res.fault e : Res α) >>= f) = Res.fault e := rfl

@[simp] theorem Res.pure_eq {α : Type} (a : α) : (pure a : Res α) = Res.ok a := rfl

theorem put_ok (o : output_buffer) (s : List Nat) (h : o.content.length + s.length < o.capacity) :
    o.put s = .ok { o with content := o.content ++ s } := by
  simp [output_buffer.put, h]

theorem put_cstr_ok (o : output_buffer) (s : List Nat) (hs : s.length < 50)
    (h : o.content.length + s.length < o.capacity) :
    o.put_cstr s = .ok { o with content := o.content ++ s } := by
  simp [output_buffer.put_cstr, hs, put_ok o s h]

theorem len_http : (bytes "HTTP/1.1 ").length = 9 := by decide

theorem len_crlf : (bytes "\r\n").length = 2 := by decide

theorem len_date : (bytes "Date: ").length = 6 := by decide

theorem len_conn : (bytes "Connection: keep-alive\r\nServer: Moustique\r\n").length = 43 := by
  decide

theorem len_cl : (bytes "Content-Length: ").length = 16 := by decide

theorem len_crlf2 : (bytes "\r\n\r\n").length = 4 := by decide

/-! ## Facts about `load`, `skip_eq`, `scan_until` and `split` -/

theorem load_length (mem : Nat → Nat) (p n : Nat) : (load mem p n).length = n := by
  simp [load]

theorem load_getD (mem : Nat → Nat) (p n i : Nat) (h : i < n) :
    (load mem p n).getD i 0 = mem (p + i) := by
  simp [load, List.getD_eq_getElem?_getD, h]

theorem mem_of_load_eq {mem : Nat → Nat} {p : Nat} {l : List Nat}
    (h : load mem p l.length = l) (i : Nat) (hi : i < l.length) : mem (p + i) = l.getD i 0 := by
  rw [← load_getD mem p l.length i hi, h]

theorem load_append {mem : Nat → Nat} {p : Nat} {a b : List Nat}
    (h : load mem p (a ++ b).length = a ++ b) :
    load mem p a.length = a ∧ load mem (p + a.length) b.length = b := by
  constructor
  · apply List.ext_getElem (by simp [load_length])
    intro i h1 h2
    have hi : i < (a ++ b).length := by simp at h2 ⊢; omega
    have := mem_of_load_eq h i hi
    simp only [load, List.getElem_map, List.getElem_range]
    rw [this, List.getD_eq_getElem?_getD, List.getElem?_append_left h2]
    simp [h2]
  · apply List.ext_getElem (by simp [load_length])
    intro i h1 h2
    have hi : a.length + i < (a ++ b).length := by simp at h2 ⊢; omega
    have := mem_of_load_eq h (a.length + i) hi
    simp only [load, List.getElem_map, List.getElem_range]
    rw [Nat.add_assoc, this, List.getD_eq_getElem?_getD,
      List.getElem?_append_right (Nat.le_add_right _ _)]
    simp [h2]

theorem ne_of_load_eq {mem : Nat → Nat} {p ch : Nat} {l : List Nat}
    (h : load mem p l.length = l) (hch : ch ∉ l) (i : Nat) (h1 : p ≤ i) (h2 : i < p + l.length) :
    mem i ≠ ch := by
  have hi : i - p < l.length := by omega
  have := mem_of_load_eq h (i - p) hi
  rw [show p + (i - p) = i by omega] at this
  rw [this, List.getD_eq_getElem?_getD, List.getElem?_eq_getElem hi]
  intro hc
  apply hch
  simp only [Option.getD_some] at hc
  rw [← hc]
  exact List.getElem_mem hi

theorem skip_eq_spec (mem : Nat → Nat) (ch : Nat) : ∀ n p : Nat,
    p ≤ skip_eq mem ch n p ∧ skip_eq mem ch n p ≤ p + n
    ∧ (∀ i, p ≤ i → i < skip_eq mem ch n p → mem i = ch)
    ∧ (skip_eq mem ch n p < p + n → mem (skip_eq mem ch n p) ≠ ch) := by
  intro n
  induction n with
  | zero => intro p; simp [skip_eq]; intro i h1 h2; omega
  | succ n ih =>
    intro p
    by_cases h : mem p = ch
    · have e : skip_eq mem ch (n + 1) p = skip_eq mem ch n (p + 1) := by simp [skip_eq, h]
      rw [e]
      obtain ⟨h1, h2, h3, h4⟩ := ih (p + 1)
      refine ⟨by omega, by omega, ?_, ?_⟩
      · intro i hi1 hi2
        by_cases hp : i = p
        · rw [hp]; exact h
        · exact h3 i (by omega) hi2
      · intro hlt; exact h4 (by omega)
    · have e : skip_eq mem ch (n + 1) p = p := by simp [skip_eq, h]
      rw [e]
      refine ⟨le_refl _, by omega, ?_, fun _ => h⟩
      intro i h1 h2; omega

theorem scan_until_spec (mem : Nat → Nat) (d : Nat) : ∀ n p : Nat,
    p ≤ scan_until mem d n p ∧ scan_until mem d n p ≤ p + n
    ∧ (∀ i, p ≤ i → i < scan_until mem d n p → mem i ≠ d)
    ∧ (scan_until mem d n p < p + n → mem (scan_until mem d n p) = d) := by
  intro n
  induction n with
  | zero => intro p; simp [scan_until]; intro i h1 h2; omega
  | succ n ih =>
    intro p
    by_cases h : mem p = d
    · have e : scan_until mem d (n + 1) p = p := by simp [scan_until, h]
      rw [e]
      refine ⟨le_refl _, by omega, ?_, fun _ => h⟩
      intro i h1 h2; omega
    · have e : scan_until mem d (n + 1) p = scan_until mem d n (p + 1) := by
        simp [scan_until, h]
      rw [e]
      obtain ⟨h1, h2, h3, h4⟩ := ih (p + 1)
      refine ⟨by omega, by omega, ?_, ?_⟩
      · intro i hi1 hi2
        by_cases hp : i = p
        · rw [hp]; exact h
        · exact h3 i (by omega) hi2
      · intro hlt; exact h4 (by omega)

theorem scan_until_eq (mem : Nat → Nat) (d n p k : Nat) (hk : k ≤ n)
    (hne : ∀ i, p ≤ i → i < p + k → mem i ≠ d) (hstop : k < n → mem (p + k) = d) :
    scan_until mem d n p = p + k := by
  obtain ⟨h1, h2, h3, h4⟩ := scan_until_spec mem d n p
  rcases Nat.lt_trichotomy (scan_until mem d n p) (p + k) with h | h | h
  · exact absurd (h4 (by omega)) (hne _ h1 h)
  · exact h
  · exact absurd (hstop (by omega)) (h3 _ (by omega) h)

theorem skip_eq_stay (mem : Nat → Nat) (ch n p : Nat) (h : mem p ≠ ch) :
    skip_eq mem ch n p = p := by
  cases n with
  | zero => rfl
  | succ n => simp [skip_eq, h]

/-- A token of `n` bytes without the delimiter, followed by the delimiter inside the line. -/
theorem split_token (mem : Nat → Nat) (cur line_end ch n : Nat) (hn : 0 < n)
    (hne : ∀ i, cur ≤ i → i < cur + n → mem i ≠ ch) (hd : mem (cur + n) = ch)
    (hle : cur + n + 1 ≤ line_end) :
    split mem cur line_end ch = ({ data := cur, size := n }, cur + n + 1) := by
  have hs : skip_eq mem ch (line_end - 1 - cur) cur = cur :=
    skip_eq_stay _ _ _ _ (hne cur (le_refl _) (by omega))
  have he : scan_until mem ch (line_end - 1 - (cur + 1)) (cur + 1) = cur + 1 + (n - 1) :=
    scan_until_eq _ _ _ _ _ (by omega) (fun i h1 h2 => hne i (by omega) (by omega))
      (fun _ => by rw [show cur + 1 + (n - 1) = cur + n by omega]; exact hd)
  unfold split
  simp only [hs, he]
  rw [show cur + 1 + (n - 1) = cur + n by omega]
  simp only [hd, if_true]
  rw [show cur + n + 1 - cur - 1 = n by omega]

/-! ## C1: chunked body through `read_body` -/

/-- C1 (code as written): the body `hello world` is sent in the chunks `hello` and ` world`;
the first read ends right after the payload of the first chunk.  `read_body` hands `hello`
to the callback and frees it; the chunk ends at `rb.end`, so `free` takes `rb.end` back to
the start of the chunk while `cur` stays behind the chunk.  The next read stores the rest of
the stream over the chunk, the size of the second chunk is looked for in the middle of its
payload (`orld`, which `strtol` reads as 0) and the loop ends.  The callback has received
`hello` only. -/
theorem chunked_read_body_loses_second_chunk :
    (make_http_processor read_body_handler 8 []
        [bytes "POST / HTTP/1.1\r\nContent-Type: chunked\r\n\r\n5\r\nhello",
         bytes "\r\n6\r\n world\r\n0\r\n\r\n"] sample_date).view
      (fun r => (r.1.flatten, r.2.written.length))
    = .ok (bytes "hello", 1) := by
  decide

/-! ## C2: reading the header block piece by piece -/

theorem store_store (m : Nat → Nat) (e : Nat) (a b : List Nat) :
    store (store m e a) (e + a.length) b = store m e (a ++ b) := by
  funext i
  simp only [store, List.length_append]
  by_cases h1 : e + a.length ≤ i ∧ i < e + a.length + b.length
  · have h2 : e ≤ i ∧ i < e + (a.length + b.length) := by omega
    rw [if_pos h1, if_pos h2, List.getD_eq_getElem?_getD, List.getD_eq_getElem?_getD,
      List.getElem?_append_right (by omega)]
    rw [show i - e - a.length = i - (e + a.length) by omega]
  · rw [if_neg h1]
    by_cases h2 : e ≤ i ∧ i < e + a.length
    · have h3 : e ≤ i ∧ i < e + (a.length + b.length) := by omega
      rw [if_pos h2, if_pos h3, List.getD_eq_getElem?_getD, List.getD_eq_getElem?_getD,
        List.getElem?_append_left (by omega)]
    · have h3 : ¬ (e ≤ i ∧ i < e + (a.length + b.length)) := by omega
      rw [if_neg h2, if_neg h3]

theorem store_below (m : Nat → Nat) (e : Nat) (a : List Nat) (i : Nat) (h : i < e) :
    store m e a i = m i := by
  simp only [store]
  rw [if_neg (by omega)]

/-- The scan reads no byte at or after `end_`. -/
theorem scan_header_congr (m1 m2 : Nat → Nat) (end_ : Nat) (h : ∀ i, i < end_ → m1 i = m2 i) :
    ∀ (n he : Nat) (lines : List Nat),
      scan_header m1 end_ n he lines = scan_header m2 end_ n he lines := by
  intro n
  induction n with
  | zero => intro he lines; rfl
  | succ n ih =>
    intro he lines
    unfold scan_header
    by_cases hlt : he + 3 < end_
    · simp only [hlt, if_true]
      rw [h he (by omega), h (he + 1) (by omega), h (he + 2) (by omega), h (he + 3) (by omega),
        ih, ih]
    · simp only [hlt, if_false]

/-- With enough fuel the scan does not depend on the fuel. -/
theorem scan_header_fuel (m : Nat → Nat) (end_ : Nat) :
    ∀ (n1 n2 he : Nat) (lines : List Nat), end_ - he ≤ n1 → end_ - he ≤ n2 →
      scan_header m end_ n1 he lines = scan_header m end_ n2 he lines := by
  intro n1
  induction n1 with
  | zero =>
    intro n2 he lines h1 _
    have hnot : ¬ he + 3 < end_ := by omega
    cases n2 with
    | zero => rfl
    | succ n2 => simp [scan_header, hnot]
  | succ n1 ih =>
    intro n2 he lines h1 h2
    by_cases hlt : he + 3 < end_
    · cases n2 with
      | zero => omega
      | succ n2 =>
        unfold scan_header
        simp only [hlt, if_true]
        rw [ih n2 (he + 2) _ (by omega) (by omega), ih n2 (he + 1) _ (by omega) (by omega)]
    · cases n2 with
      | zero => simp [scan_header, hlt]
      | succ n2 => simp [scan_header, hlt]

theorem scan_header_succ (m : Nat → Nat) (end_ n he : Nat) (lines : List Nat) :
    scan_header m end_ (n + 1) he lines =
      if he + 3 < end_ then
        if m he = CR ∧ m (he + 1) = LF then
          if 100 ≤ lines.length then .fault .undefined
          else if m (he + 2) = CR ∧ m (he + 3) = LF then
            .ok ⟨he + 4, lines ++ [he + 2], true⟩
          else scan_header m end_ n (he + 2) (lines ++ [he + 2])
        else scan_header m end_ n (he + 1) lines
      else .ok ⟨he, lines, false⟩ := by
  rw [scan_header]

/-- Scanning up to `end2` is scanning up to `end1` and going on from there. -/
theorem scan_header_mono (m : Nat → Nat) (end1 end2 : Nat) (hle : end1 ≤ end2) :
    ∀ (n1 he : Nat) (lines : List Nat), end1 - he ≤ n1 →
      scan_header m end2 (end2 - he) he lines =
        match scan_header m end1 n1 he lines with
        | .fault f => .fault f
        | .ok h =>
          if h.complete_header then .ok h
          else scan_header m end2 (end2 - h.header_end) h.header_end h.header_lines := by
  intro n1
  induction n1 with
  | zero =>
    intro he lines h1
    simp [scan_header]
  | succ n1 ih =>
    intro he lines h1
    by_cases hlt : he + 3 < end1
    · have hlt2 : he + 3 < end2 := by omega
      obtain ⟨k, hk⟩ : ∃ k, end2 - he = k + 1 := ⟨end2 - he - 1, by omega⟩
      rw [hk, scan_header_succ m end1 n1, scan_header_succ m end2 k]
      simp only [hlt, hlt2, if_true]
      by_cases hcr : m he = CR ∧ m (he + 1) = LF
      · simp only [hcr, and_self, if_true]
        by_cases hfull : 100 ≤ lines.length
        · simp only [hfull, if_true]
        · simp only [hfull, if_false]
          by_cases hcr2 : m (he + 2) = CR ∧ m (he + 3) = LF
          · simp only [hcr2, and_self, if_true]
          · simp only [hcr2, if_false]
            rw [← ih (he + 2) _ (by omega)]
            exact scan_header_fuel m end2 _ _ _ _ (by omega) (by omega)
      · simp only [hcr, if_false]
        rw [← ih (he + 1) _ (by omega)]
        exact scan_header_fuel m end2 _ _ _ _ (by omega) (by omega)
    · have e1 : scan_header m end1 (n1 + 1) he lines = .ok ⟨he, lines, false⟩ := by
        simp [scan_header, hlt]
      rw [e1]
      simp

/-- The four bytes CR LF CR LF at offset `i`. -/
theorem scan_header_complete (m : Nat → Nat) (end_ : Nat) :
    ∀ (n he : Nat) (lines : List Nat) (h : header_scan),
      scan_header m end_ n he lines = .ok h → h.complete_header = true →
      he + 4 ≤ h.header_end ∧ h.header_end ≤ end_
      ∧ m (h.header_end - 4) = CR ∧ m (h.header_end - 3) = LF
      ∧ m (h.header_end - 2) = CR ∧ m (h.header_end - 1) = LF := by
  intro n
  induction n with
  | zero =>
    intro he lines h hs hc
    simp only [scan_header, Res.ok.injEq] at hs
    rw [← hs] at hc
    simp at hc
  | succ n ih =>
    intro he lines h hs hc
    unfold scan_header at hs
    by_cases hlt : he + 3 < end_
    · simp only [hlt, if_true] at hs
      by_cases hcr : m he = CR ∧ m (he + 1) = LF
      · simp only [hcr, and_self, if_true] at hs
        by_cases hfull : 100 ≤ lines.length
        · simp [hfull] at hs
        · simp only [hfull, if_false] at hs
          by_cases hcr2 : m (he + 2) = CR ∧ m (he + 3) = LF
          · simp only [hcr2, and_self, if_true, Res.ok.injEq] at hs
            rw [← hs]
            simp only
            refine ⟨le_refl _, by omega, ?_, ?_, ?_, ?_⟩
            · rw [show he + 4 - 4 = he by omega]; exact hcr.1
            · rw [show he + 4 - 3 = he + 1 by omega]; exact hcr.2
            · rw [show he + 4 - 2 = he + 2 by omega]; exact hcr2.1
            · rw [show he + 4 - 1 = he + 3 by omega]; exact hcr2.2
          · simp only [hcr2, if_false] at hs
            obtain ⟨a, b⟩ := ih _ _ _ hs hc
            exact ⟨by omega, b⟩
      · simp only [hcr, if_false] at hs
        obtain ⟨a, b⟩ := ih _ _ _ hs hc
        exact ⟨by omega, b⟩
    · simp only [hlt, if_false, Res.ok.injEq] at hs
      rw [← hs] at hc
      simp at hc

/-- The scan moves `header_end` forward only. -/
theorem scan_header_forward (m : Nat → Nat) (end_ : Nat) :
    ∀ (n he : Nat) (lines : List Nat) (h : header_scan),
      scan_header m end_ n he lines = .ok h → he ≤ h.header_end := by
  intro n
  induction n with
  | zero =>
    intro he lines h hs
    simp only [scan_header, Res.ok.injEq] at hs
    rw [← hs]
  | succ n ih =>
    intro he lines h hs
    unfold scan_header at hs
    by_cases hlt : he + 3 < end_
    · simp only [hlt, if_true] at hs
      by_cases hcr : m he = CR ∧ m (he + 1) = LF
      · simp only [hcr, and_self, if_true] at hs
        by_cases hfull : 100 ≤ lines.length
        · simp [hfull] at hs
        · simp only [hfull, if_false] at hs
          by_cases hcr2 : m (he + 2) = CR ∧ m (he + 3) = LF
          · simp only [hcr2, and_self, if_true, Res.ok.injEq] at hs
            rw [← hs]; simp
          · simp only [hcr2, if_false] at hs
            have := ih _ _ _ hs
            omega
      · simp only [hcr, if_false] at hs
        have := ih _ _ _ hs
        omega
    · simp only [hlt, if_false, Res.ok.injEq] at hs
      rw [← hs]

theorem read_more_eq (rb : read_buffer) (s : Sock) :
    rb.read_more s (-1) =
      if rb.size = rb.end_ ∧ rb.size > 10 * 1024 * 1024 then (0, rb, s)
      else if (sock_read s (rb.grown.size - rb.grown.end_)).1.length = 0 then
        (0, rb.grown, (sock_read s (rb.grown.size - rb.grown.end_)).2)
      else ((sock_read s (rb.grown.size - rb.grown.end_)).1.length,
            rb.grown.received (sock_read s (rb.grown.size - rb.grown.end_)).1,
            (sock_read s (rb.grown.size - rb.grown.end_)).2) := by
  unfold read_buffer.read_more read_buffer.grown read_buffer.received
  by_cases h : rb.size = rb.end_ <;> simp [h]

theorem read_header_succ (fuel : Nat) (rb : read_buffer) (s : Sock) (he : Nat)
    (lines : List Nat) :
    read_header (fuel + 1) rb s he lines =
      if rb.size = rb.end_ ∧ rb.size > 10 * 1024 * 1024 then .ok (⟨he, lines, false⟩, rb, s)
      else if (sock_read s (rb.grown.size - rb.grown.end_)).1.length = 0 then
        .ok (⟨he, lines, false⟩, rb.grown, (sock_read s (rb.grown.size - rb.grown.end_)).2)
      else
        header_next fuel (rb.grown.received (sock_read s (rb.grown.size - rb.grown.end_)).1)
          (sock_read s (rb.grown.size - rb.grown.end_)).2
          (scan_header (rb.grown.received (sock_read s (rb.grown.size - rb.grown.end_)).1).mem
            (rb.grown.received (sock_read s (rb.grown.size - rb.grown.end_)).1).end_
            ((rb.grown.received (sock_read s (rb.grown.size - rb.grown.end_)).1).end_ - he)
            he lines) := by
  rw [read_header, read_more_eq]
  by_cases h1 : rb.size = rb.end_ ∧ rb.size > 10 * 1024 * 1024
  · rw [if_pos h1, if_pos h1]
    simp only [if_true]
  · rw [if_neg h1, if_neg h1]
    by_cases h2 : (sock_read s (rb.grown.size - rb.grown.end_)).1.length = 0
    · rw [if_pos h2, if_pos h2]
      simp only [if_true]
    · rw [if_neg h2, if_neg h2]
      simp only [h2, if_false, header_next]

theorem grown_end (rb : read_buffer) : rb.grown.end_ = rb.end_ := by
  unfold read_buffer.grown
  split <;> rfl

theorem grown_room (rb : read_buffer) (h1 : rb.end_ ≤ rb.size) (h2 : 0 < rb.size) :
    rb.grown.end_ < rb.grown.size := by
  unfold read_buffer.grown
  split
  · simp only; omega
  · omega

theorem grown_mem (rb : read_buffer) (i : Nat) (hi : i < rb.end_) :
    rb.grown.mem i = rb.mem i := by
  unfold read_buffer.grown
  split
  · simp only
    rw [if_pos (by omega)]
  · rfl

theorem store_agree (m1 m2 : Nat → Nat) (e : Nat) (bs : List Nat)
    (h : ∀ i, i < e → m1 i = m2 i) (i : Nat) (hi : i < e + bs.length) :
    store m1 e bs i = store m2 e bs i := by
  simp only [store]
  by_cases hc : e ≤ i ∧ i < e + bs.length
  · rw [if_pos hc, if_pos hc]
  · rw [if_neg hc, if_neg hc]
    exact h i (by omega)

theorem no_early_terminator_congr (m1 m2 : Nat → Nat) (lo hi : Nat)
    (h : ∀ i, i < hi → m1 i = m2 i) (h1 : no_early_terminator m1 lo hi) :
    no_early_terminator m2 lo hi := by
  intro i hlo hhi hp
  apply h1 i hlo hhi
  rw [h i (by omega), h (i + 1) (by omega), h (i + 2) (by omega), h (i + 3) (by omega)]
  exact hp

theorem no_early_terminator_from (m : Nat → Nat) (lo lo2 hi : Nat) (hle : lo ≤ lo2)
    (h1 : no_early_terminator m lo hi) : no_early_terminator m lo2 hi :=
  fun i hlo hhi => h1 i (by omega) hhi

/-- While bytes are still to come, the scan of what has arrived cannot be complete. -/
theorem scan_not_complete (m : Nat → Nat) (end_ hi n he : Nat) (lines : List Nat)
    (h : header_scan) (hno : no_early_terminator m he hi) (hlt : end_ < hi)
    (hs : scan_header m end_ n he lines = .ok h) : h.complete_header = false := by
  by_contra hc
  have hc2 : h.complete_header = true := by simpa using hc
  obtain ⟨a, b, c1, c2, c3, c4⟩ := scan_header_complete m end_ n he lines h hs hc2
  apply hno (h.header_end - 4) (by omega) (by omega)
  refine ⟨c1, ?_, ?_, ?_⟩
  · rw [show h.header_end - 4 + 1 = h.header_end - 3 by omega]; exact c2
  · rw [show h.header_end - 4 + 2 = h.header_end - 2 by omega]; exact c3
  · rw [show h.header_end - 4 + 3 = h.header_end - 1 by omega]; exact c4

theorem received_received (rb : read_buffer) (a b : List Nat) :
    (rb.received a).received b = rb.received (a ++ b) := by
  simp only [read_buffer.received, store_store, List.length_append, Nat.add_assoc]

theorem read_header_nil (fuel : Nat) (rb : read_buffer) (he : Nat) (lines : List Nat) :
    read_header (fuel + 1) rb [] he lines =
      if rb.size = rb.end_ ∧ rb.size > 10 * 1024 * 1024 then .ok (⟨he, lines, false⟩, rb, [])
      else .ok (⟨he, lines, false⟩, rb.grown, []) := by
  rw [read_header_succ]
  simp [sock_read]

theorem header_next_view (F1 F2 : Nat) (rb : read_buffer) (s1 s2 : Sock) (x : Res header_scan)
    (hrec : ∀ h, x = .ok h → h.complete_header = false →
      (read_header F1 rb s1 h.header_end h.header_lines).view header_read_view
        = (read_header F2 rb s2 h.header_end h.header_lines).view header_read_view) :
    (header_next F1 rb s1 x).view header_read_view
      = (header_next F2 rb s2 x).view header_read_view := by
  cases x with
  | fault f => rfl
  | ok h =>
    by_cases hc : h.complete_header = true
    · simp only [header_next, hc, if_true]
      rfl
    · have hc2 : h.complete_header = false := by simpa using hc
      simp only [header_next, hc2, Bool.false_eq_true, if_false]
      exact hrec h rfl hc2

theorem read_header_empty_piece (F : Nat) (rb : read_buffer) (he : Nat) (lines : List Nat) :
    (read_header F rb [[]] he lines).view header_read_view
      = (read_header F rb [] he lines).view header_read_view := by
  cases F with
  | zero => rfl
  | succ F =>
    rw [read_header_succ, read_header_succ]
    by_cases hcap : rb.size = rb.end_ ∧ rb.size > 10 * 1024 * 1024
    · rw [if_pos hcap, if_pos hcap]
      rfl
    · rw [if_neg hcap, if_neg hcap]
      simp [sock_read]

theorem flatten_ne_nil (s : Sock) (hne : ∀ p ∈ s, p ≠ []) (hs : s ≠ []) : s.flatten ≠ [] := by
  cases s with
  | nil => exact absurd rfl hs
  | cons p rest =>
    intro h
    simp only [List.flatten_cons, List.append_eq_nil] at h
    exact hne p (by simp) h.1

/-- One `read` of at most `n > 0` bytes from pieces `p :: rest` against one from the single
piece with the same bytes: either both return the same bytes, or the first returns all of `p`
and `p` is shorter than what the second returns. -/
theorem sock_read_cases (p : List Nat) (rest : Sock) (n : Nat) (hn : 0 < n) (hp : p ≠ [])
    (hne : ∀ q ∈ rest, q ≠ []) :
    (∃ g s1 s2, sock_read (p :: rest) n = (g, s1) ∧ sock_read [(p :: rest).flatten] n = (g, s2)
      ∧ g ≠ [] ∧ g.length ≤ n ∧ (∀ q ∈ s1, q ≠ []) ∧ (p :: rest).flatten = g ++ s1.flatten
      ∧ (s2 = [s1.flatten] ∨ (s2 = [] ∧ s1 = [])))
    ∨ (p.length < n ∧ rest.flatten ≠ [] ∧ sock_read (p :: rest) n = (p, rest)) := by
  have hpl : 0 < p.length := List.length_pos.mpr hp
  by_cases h1 : n ≤ p.length
  · left
    by_cases h2 : p.length ≤ n
    · -- the piece is exactly as long as the room
      have hpn : p.length = n := by omega
      by_cases h3 : rest = []
      · refine ⟨p, [], [], ?_, ?_, hp, h2, by simp, by simp [h3], Or.inr ⟨rfl, rfl⟩⟩
        · simp [sock_read, h2, h3]
        · simp [sock_read, h2, h3]
      · have hrf : rest.flatten ≠ [] := flatten_ne_nil rest hne h3
        have hrl : 0 < rest.flatten.length := List.length_pos.mpr hrf
        refine ⟨p, rest, [rest.flatten], ?_, ?_, hp, h2, hne, by simp, Or.inl rfl⟩
        · simp [sock_read, h2]
        · have : ¬ (p.length + rest.flatten.length ≤ n) := by omega
          simp only [sock_read, List.flatten_cons, List.length_append, this, if_false]
          rw [← hpn]
          simp
    · have h3 : n < p.length := by omega
      refine ⟨p.take n, p.drop n :: rest, [(p.drop n :: rest).flatten], ?_, ?_, ?_, ?_, ?_, ?_,
        Or.inl rfl⟩
      · simp [sock_read, h2]
      · have : ¬ (p.length + rest.flatten.length ≤ n) := by omega
        simp only [sock_read, List.flatten_cons, List.length_append, this, if_false]
        rw [List.take_append_of_le_length (by omega), List.drop_append_of_le_length (by omega)]
      · intro h
        have := congrArg List.length h
        rw [List.length_take, List.length_nil] at this
        omega
      · simp
      · intro q hq
        rcases List.mem_cons.mp hq with h | h
        · rw [h]
          intro h0
          have := congrArg List.length h0
          rw [List.length_drop, List.length_nil] at this
          omega
        · exact hne q h
      · simp only [List.flatten_cons]
        rw [← List.append_assoc, List.take_append_drop]
  · by_cases h3 : rest = []
    · left
      refine ⟨p, [], [], ?_, ?_, hp, by omega, by simp, by simp [h3], Or.inr ⟨rfl, rfl⟩⟩
      · simp [sock_read, h3]; omega
      · simp [sock_read, h3]; omega
    · right
      refine ⟨by omega, flatten_ne_nil rest hne h3, ?_⟩
      simp [sock_read]; omega

theorem received_end (rb : read_buffer) (g : List Nat) :
    (rb.received g).end_ = rb.end_ + g.length := rfl

theorem received_size (rb : read_buffer) (g : List Nat) : (rb.received g).size = rb.size := rfl

theorem received_mem (rb : read_buffer) (g : List Nat) :
    (rb.received g).mem = store rb.mem rb.end_ g := rfl

theorem grown_size_pos (rb : read_buffer) (h : 0 < rb.size) : 0 < rb.grown.size := by
  unfold read_buffer.grown
  split
  · simp only; omega
  · exact h

theorem grown_of_room (rb : read_buffer) (h : rb.size ≠ rb.end_) : rb.grown = rb := by
  unfold read_buffer.grown
  rw [if_neg h]

/-- The terminator condition carried over one read of `g`, with the scan at `h`. -/
theorem no_early_terminator_step (rb : read_buffer) (g rest : List Nat) (he he2 : Nat)
    (hle : he ≤ he2)
    (hno : no_early_terminator (store rb.mem rb.end_ (g ++ rest)) he
      (rb.end_ + (g ++ rest).length)) :
    no_early_terminator (store (rb.grown.received g).mem (rb.grown.received g).end_ rest) he2
      ((rb.grown.received g).end_ + rest.length) := by
  rw [received_mem, received_end, grown_end, store_store]
  have e : rb.end_ + g.length + rest.length = rb.end_ + (g ++ rest).length := by
    simp [Nat.add_assoc]
  rw [e]
  apply no_early_terminator_from _ he he2 _ hle
  apply no_early_terminator_congr _ _ _ _ _ hno
  intro i hi
  exact store_agree _ _ _ _ (fun j hj => (grown_mem rb j hj).symm) i hi

theorem sock_read_single_append (p rf : List Nat) (n : Nat) (h : p.length ≤ n) :
    sock_read [p ++ rf] n
      = (p ++ (sock_read [rf] (n - p.length)).1, (sock_read [rf] (n - p.length)).2) := by
  by_cases h1 : rf.length ≤ n - p.length
  · have h2 : (p ++ rf).length ≤ n := by rw [List.length_append]; omega
    simp only [sock_read, h1, h2, if_true]
  · have h2 : ¬ (p ++ rf).length ≤ n := by rw [List.length_append]; omega
    simp only [sock_read, h1, h2, if_false]
    have e : n = p.length + (n - p.length) := by omega
    rw [Prod.mk.injEq]
    constructor
    · conv_lhs => rw [e]
      rw [List.take_append]
    · conv_lhs => rw [e]
      rw [List.drop_append]

theorem sock_read_single_ne (rf : List Nat) (k : Nat) (hrf : rf ≠ []) (hk : 0 < k) :
    0 < (sock_read [rf] k).1.length ∧ (sock_read [rf] k).1.length ≤ k := by
  have hl : 0 < rf.length := List.length_pos.mpr hrf
  by_cases h1 : rf.length ≤ k
  · rw [sock_read, if_pos h1]
    exact ⟨hl, h1⟩
  · rw [sock_read, if_neg h1]
    simp only [List.length_take]
    constructor <;> omega

/-- Reading the pieces of a stream one by one leaves the scan and the buffer as reading the
stream as a single piece does, provided no terminator ends before the last byte. -/
theorem read_header_pieces : ∀ (F1 F2 : Nat) (rb : read_buffer) (s : Sock) (he : Nat)
    (lines : List Nat),
    rb.end_ ≤ rb.size → 0 < rb.size → (∀ p ∈ s, p ≠ []) →
    no_early_terminator (store rb.mem rb.end_ s.flatten) he (rb.end_ + s.flatten.length) →
    s.flatten.length < F1 → s.flatten.length < F2 →
    (read_header F1 rb s he lines).view header_read_view
      = (read_header F2 rb [s.flatten] he lines).view header_read_view := by
  intro F1
  induction F1 with
  | zero => intro F2 rb s he lines _ _ _ _ h _; omega
  | succ F1 ih =>
    intro F2 rb s he lines hle hpos hne hno hF1 hF2
    obtain ⟨F2, rfl⟩ : ∃ k, F2 = k + 1 := ⟨F2 - 1, by omega⟩
    cases s with
    | nil =>
      rw [show ([] : Sock).flatten = [] from rfl, read_header_empty_piece, read_header_nil,
        read_header_nil]
    | cons p rest =>
      have hp : p ≠ [] := hne p (by simp)
      have hrest : ∀ q ∈ rest, q ≠ [] := fun q hq => hne q (by simp [hq])
      rw [read_header_succ, read_header_succ]
      by_cases hcap : rb.size = rb.end_ ∧ rb.size > 10 * 1024 * 1024
      · rw [if_pos hcap, if_pos hcap]
        rfl
      rw [if_neg hcap, if_neg hcap]
      have hroom : rb.grown.end_ < rb.grown.size := grown_room rb hle hpos
      rcases sock_read_cases p rest (rb.grown.size - rb.grown.end_) (by omega) hp hrest with
        ⟨g, s1, s2, e1, e2, hg, hgn, hs1, hbs, hs2⟩ | ⟨hlt, hrf, e1⟩
      · -- both reads return `g`
        have hgl : 0 < g.length := List.length_pos.mpr hg
        rw [e1, e2]
        simp only
        rw [if_neg (by omega), if_neg (by omega)]
        apply header_next_view
        intro h hx hc
        have hfw := scan_header_forward _ _ _ _ _ _ hx
        have hlen : (p :: rest).flatten.length = g.length + s1.flatten.length := by
          rw [hbs, List.length_append]
        have hrec := ih F2 (rb.grown.received g) s1 h.header_end h.header_lines
          (by rw [received_end, received_size]; omega)
          (by rw [received_size]; exact grown_size_pos rb hpos)
          hs1
          (no_early_terminator_step rb g s1.flatten he h.header_end hfw (by rw [← hbs]; exact hno))
          (by omega) (by omega)
        rcases hs2 with hs2 | ⟨hs2, hs1nil⟩
        · rw [hs2]; exact hrec
        · rw [hs2]
          rw [hs1nil] at hrec
          rw [hs1nil, hrec]
          exact read_header_empty_piece _ _ _ _
      · -- the first read returns `p`, the single piece gives more
        have hpl : 0 < p.length := List.length_pos.mpr hp
        obtain ⟨hg2, hg2n⟩ := sock_read_single_ne rest.flatten
          (rb.grown.size - rb.grown.end_ - p.length) hrf (by omega)
        have e2 := sock_read_single_append p rest.flatten (rb.grown.size - rb.grown.end_)
          (by omega)
        rw [show (p :: rest).flatten = p ++ rest.flatten from rfl, e1, e2]
        simp only
        rw [if_neg (by omega), if_neg (by rw [List.length_append]; omega)]
        generalize hg2def : (sock_read [rest.flatten]
          (rb.grown.size - rb.grown.end_ - p.length)).1 = g2 at hg2 hg2n
        generalize hs3def : (sock_read [rest.flatten]
          (rb.grown.size - rb.grown.end_ - p.length)).2 = s3
        -- the scan after the longer read goes on from the scan after the shorter one
        have hmono := scan_header_mono (rb.grown.received (p ++ g2)).mem
          (rb.grown.received p).end_ (rb.grown.received (p ++ g2)).end_
          (by rw [received_end, received_end, List.length_append]; omega)
          ((rb.grown.received p).end_ - he) he lines (le_refl _)
        have hcongr := scan_header_congr (rb.grown.received (p ++ g2)).mem
          (rb.grown.received p).mem (rb.grown.received p).end_
          (by
            intro i hi
            rw [← received_received, received_mem (rb.grown.received p)]
            exact store_below _ _ _ _ hi)
          ((rb.grown.received p).end_ - he) he lines
        rw [hcongr] at hmono
        rw [hmono]
        cases hx : scan_header (rb.grown.received p).mem (rb.grown.received p).end_
            ((rb.grown.received p).end_ - he) he lines with
        | fault f => rfl
        | ok h =>
          have hfw := scan_header_forward _ _ _ _ _ _ hx
          have hno2 := no_early_terminator_step rb p rest.flatten he he (le_refl _) hno
          have hc : h.complete_header = false := by
            have hx2 := hx
            rw [scan_header_congr (rb.grown.received p).mem
              (store (rb.grown.received p).mem (rb.grown.received p).end_ rest.flatten)
              (rb.grown.received p).end_
              (fun i hi => (store_below _ _ _ _ hi).symm)] at hx2
            exact scan_not_complete _ _ _ _ _ _ _ hno2
              (by have := List.length_pos.mpr hrf; omega) hx2
          simp only [header_next, hc, Bool.false_eq_true, if_false]
          have hrec := ih (F2 + 1) (rb.grown.received p) rest h.header_end h.header_lines
            (by rw [received_end, received_size]; omega)
            (by rw [received_size]; exact grown_size_pos rb hpos)
            hrest
            (no_early_terminator_step rb p rest.flatten he h.header_end hfw hno)
            (by simp only [List.flatten_cons, List.length_append] at hF1; omega)
            (by simp only [List.flatten_cons, List.length_append] at hF2; omega)
          rw [hrec, read_header_succ]
          have hne2 : (rb.grown.received p).size ≠ (rb.grown.received p).end_ := by
            rw [received_end, received_size]; omega
          rw [if_neg (fun hh => hne2 hh.1), grown_of_room _ hne2]
          rw [show (rb.grown.received p).size - (rb.grown.received p).end_
            = rb.grown.size - rb.grown.end_ - p.length by
              rw [received_end, received_size]; omega]
          rw [hg2def, hs3def, if_neg (by omega), received_received]
          simp only [header_next]

theorem store_at (m : Nat → Nat) (e : Nat) (bs : List Nat) (i : Nat) (h1 : e ≤ i)
    (h2 : i < e + bs.length) : store m e bs i = bs.getD (i - e) 0 := by
  simp only [store]
  rw [if_pos ⟨h1, h2⟩]

theorem Res.view_view {α β γ : Type} (f : α → β) (g : β → γ) (x : Res α) :
    (x.view f).view g = x.view (fun a => g (f a)) := by
  cases x <;> rfl

/-- C2: on a buffer with nothing unread, for every block of bytes in which no CR LF CR LF ends
before the last byte (a request line, header lines, and the empty line at the very end) and
every division of the block into non-empty pieces returned by successive reads, the header
read of the connection processor ends as it does when the whole block is returned as a single
piece: the same header-line offsets, the same end of the header block and completion flag,
the same buffer (bytes, `cursor`, `end`, size), and the same `method()`, `url()`,
`http_version()` and `header(key)` for the handler. -/
theorem header_read_fragmentation_independent (rb : read_buffer) (ps : Sock) (fuel : Nat)
    (key : List Nat)
    (hle : rb.end_ ≤ rb.size) (hpos : 0 < rb.size) (hcur : rb.cursor = rb.end_)
    (hps : ∀ p ∈ ps, p ≠ [])
    (hterm : ∀ i, i < ps.flatten.length - 4 →
      ¬ (ps.flatten.getD i 0 = CR ∧ ps.flatten.getD (i + 1) 0 = LF
          ∧ ps.flatten.getD (i + 2) 0 = CR ∧ ps.flatten.getD (i + 3) 0 = LF))
    (hfuel : ps.flatten.length < fuel) :
    (read_header fuel rb ps rb.cursor [rb.cursor]).view (fun r => r.1)
      = (read_header fuel rb [ps.flatten] rb.cursor [rb.cursor]).view (fun r => r.1)
    ∧ (read_header fuel rb ps rb.cursor [rb.cursor]).view (fun r => r.2.1)
      = (read_header fuel rb [ps.flatten] rb.cursor [rb.cursor]).view (fun r => r.2.1)
    ∧ (read_header fuel rb ps rb.cursor [rb.cursor]).view
        (fun r => request_view key (header_read_view r))
      = (read_header fuel rb [ps.flatten] rb.cursor [rb.cursor]).view
        (fun r => request_view key (header_read_view r)) := by
  have hno : no_early_terminator (store rb.mem rb.end_ ps.flatten) rb.end_
      (rb.end_ + ps.flatten.length) := by
    intro i h1 h2 hp
    apply hterm (i - rb.end_) (by omega)
    rw [store_at _ _ _ i h1 (by omega), store_at _ _ _ (i + 1) (by omega) (by omega),
      store_at _ _ _ (i + 2) (by omega) (by omega),
      store_at _ _ _ (i + 3) (by omega) (by omega)] at hp
    rw [show i - rb.end_ + 1 = i + 1 - rb.end_ by omega,
      show i - rb.end_ + 2 = i + 2 - rb.end_ by omega,
      show i - rb.end_ + 3 = i + 3 - rb.end_ by omega]
    exact hp
  have hmain := read_header_pieces fuel fuel rb ps rb.end_ [rb.end_] hle hpos hps hno hfuel hfuel
  rw [hcur]
  refine ⟨?_, ?_, ?_⟩
  · have := congrArg (Res.view (fun v : header_scan × read_buffer => v.1)) hmain
    rw [Res.view_view, Res.view_view] at this
    exact this
  · have := congrArg (Res.view (fun v : header_scan × read_buffer => v.2)) hmain
    rw [Res.view_view, Res.view_view] at this
    exact this
  · have := congrArg (Res.view (request_view key)) hmain
    rw [Res.view_view, Res.view_view] at this
    exact this

/-- Witness for C2: `GET /hi HTTP/1.1`, `Host: x` and the empty line, one byte per read on a new
connection; both ways the header ends at 29 with the lines noted at 0, 18 and 27. -/
theorem header_read_fragmentation_independent_witness :
    ((read_header 40 read_buffer.new
          (byte_by_byte (bytes "GET /hi HTTP/1.1\r\nHost: x\r\n\r\n")) 0 [0]).view (fun r => r.1)
      = (read_header 40 read_buffer.new
          [(byte_by_byte (bytes "GET /hi HTTP/1.1\r\nHost: x\r\n\r\n")).flatten] 0 [0]).view
          (fun r => r.1)
    ∧ (read_header 40 read_buffer.new
          (byte_by_byte (bytes "GET /hi HTTP/1.1\r\nHost: x\r\n\r\n")) 0 [0]).view
          (fun r => r.2.1)
      = (read_header 40 read_buffer.new
          [(byte_by_byte (bytes "GET /hi HTTP/1.1\r\nHost: x\r\n\r\n")).flatten] 0 [0]).view
          (fun r => r.2.1)
    ∧ (read_header 40 read_buffer.new
          (byte_by_byte (bytes "GET /hi HTTP/1.1\r\nHost: x\r\n\r\n")) 0 [0]).view
          (fun r => request_view (bytes "Host") (header_read_view r))
      = (read_header 40 read_buffer.new
          [(byte_by_byte (bytes "GET /hi HTTP/1.1\r\nHost: x\r\n\r\n")).flatten] 0 [0]).view
          (fun r => request_view (bytes "Host") (header_read_view r)))
    ∧ (read_header 40 read_buffer.new
          (byte_by_byte (bytes "GET /hi HTTP/1.1\r\nHost: x\r\n\r\n")) 0 [0]).view (fun r => r.1)
      = .ok { header_end := 29, header_lines := [0, 18, 27], complete_header := true } :=
  ⟨header_read_fragmentation_independent read_buffer.new
      (byte_by_byte (bytes "GET /hi HTTP/1.1\r\nHost: x\r\n\r\n")) 40 (bytes "Host")
      (by decide) (by decide) (by decide) (by decide) (by decide) (by decide),
    by decide⟩

/-! ## C3: `respond` on a small body -/

theorem format_top_headers_ok (c : http_ctx) (hst : c.status_.length < 50)
    (hfit : 9 + c.status_.length + 2 + 6 + c.date_buf.length + 2 + 43 < 10200) :
    c.format_top_headers (output_buffer.new 10200) = .ok
      { capacity := 10200,
        content := bytes "HTTP/1.1 " ++ c.status_ ++ bytes "\r\n" ++ bytes "Date: " ++ c.date_buf
          ++ bytes "\r\n" ++ bytes "Connection: keep-alive\r\nServer: Moustique\r\n" } := by
  unfold http_ctx.format_top_headers
  rw [put_cstr_ok _ _ (by rw [len_http]; omega) (by simp [output_buffer.new, len_http])]
  simp only [Res.ok_bind]
  rw [put_cstr_ok _ _ hst (by simp [output_buffer.new, len_http]; omega)]
  simp only [Res.ok_bind]
  rw [put_cstr_ok _ _ (by rw [len_crlf]; omega)
    (by simp [output_buffer.new, len_http, len_crlf]; omega)]
  simp only [Res.ok_bind]
  rw [put_cstr_ok _ _ (by rw [len_date]; omega)
    (by simp [output_buffer.new, len_http, len_crlf, len_date]; omega)]
  simp only [Res.ok_bind]
  rw [put_ok _ _ (by simp [output_buffer.new, len_http, len_crlf, len_date]; omega)]
  simp only [Res.ok_bind]
  rw [put_cstr_ok _ _ (by rw [len_crlf]; omega)
    (by simp [output_buffer.new, len_http, len_crlf, len_date]; omega)]
  simp only [Res.ok_bind]
  rw [put_cstr_ok _ _ (by rw [len_conn]; omega)
    (by simp [output_buffer.new, len_http, len_crlf, len_date, len_conn]; omega)]
  simp [output_buffer.new]

theorem expected_response_length (st d h s : List Nat) :
    (expected_response st d h s).length
      = 9 + st.length + 2 + 6 + d.length + 2 + 43 + h.length + 16 + (decimal s.length).length
        + 4 + s.length := by
  simp [expected_response, len_http, len_crlf, len_date, len_conn, len_cl, len_crlf2]
  omega

/-- C3 (code as written): with 96 bytes of header scratch (one `set_header` call) and a
body of 10,000 bytes the response needs 10,218 bytes; `respond` assembles it in a buffer of
10,200 bytes, the `assert(cursor_ + s.size() < end_)` of `operator<<` fails when the body is
appended, and nothing is handed to `write`. -/
theorem respond_overflows_output_buffer :
    ((http_ctx.new read_buffer.new [] sample_date).set_header (bytes "X-Pad")
        (List.replicate 87 120) >>= fun c => c.respond (List.replicate 10000 97)).view
      (fun c => c.written)
    = .fault .assertion := by
  decide!

theorem respond_small_ok (c : http_ctx) (s : List Nat) (hs : s.length ≤ 10000)
    (hst : c.status_.length < 50)
    (hfit : (expected_response c.status_ c.date_buf c.headers_stream.content s).length < 10200) :
    c.respond s = .ok
      { c with
        response_written_ := true,
        written := c.written ++
          [expected_response c.status_ c.date_buf c.headers_stream.content s] } := by
  rw [expected_response_length] at hfit
  unfold http_ctx.respond
  simp only [Res.pure_eq, Res.ok_bind, if_neg (Nat.not_lt.mpr hs)]
  rw [format_top_headers_ok { c with response_written_ := true } hst (by simp only []; omega)]
  simp only [Res.ok_bind, output_buffer.to_string_view, output_buffer.put_int]
  rw [put_ok _ _ (by simp [len_http, len_crlf, len_date, len_conn]; omega)]
  simp only [Res.ok_bind]
  rw [put_cstr_ok _ _ (by rw [len_cl]; omega)
    (by simp [len_http, len_crlf, len_date, len_conn, len_cl]; omega)]
  simp only [Res.ok_bind]
  rw [put_ok _ _ (by simp [len_http, len_crlf, len_date, len_conn, len_cl]; omega)]
  simp only [Res.ok_bind]
  rw [put_cstr_ok _ _ (by rw [len_crlf2]; omega)
    (by simp [len_http, len_crlf, len_date, len_conn, len_cl, len_crlf2]; omega)]
  simp only [Res.ok_bind]
  rw [put_ok _ _ (by simp [len_http, len_crlf, len_date, len_conn, len_cl, len_crlf2]; omega)]
  simp [expected_response, http_ctx.write]

/-- Where the buffer suffices `respond` does write the bytes of the specification: for a
status token shorter than 50 bytes, any date, scratch and body of at most 10,000 bytes such
that the whole response is shorter than 10,200 bytes, `respond(s)` sets `response_written_`
and makes one `write` call, with the bytes `HTTP/1.1 st CRLF Date: d CRLF Connection:
keep-alive CRLF Server: Moustique CRLF h Content-Length: decimal(length s) CRLF CRLF s`. -/
theorem respond_small_writes_expected (c : http_ctx) (s : List Nat) (hs : s.length ≤ 10000)
    (hst : c.status_.length < 50)
    (hfit : (expected_response c.status_ c.date_buf c.headers_stream.content s).length < 10200) :
    c.respond s = .ok
      { c with
        response_written_ := true,
        written := c.written ++
          [expected_response c.status_ c.date_buf c.headers_stream.content s] } :=
  respond_small_ok c s hs hst hfit

/-- An instance: the body `ok` with the default status gives `200 OK`, `Content-Length: 2`
and the body `ok`, in one write. -/
theorem respond_small_writes_expected_witness :
    (bytes "ok").length ≤ 10000
    ∧ (http_ctx.new read_buffer.new [] sample_date).status_.length < 50
    ∧ ((http_ctx.new read_buffer.new [] sample_date).respond (bytes "ok")).view
        (fun c => (c.response_written_, c.written))
      = .ok (true, [bytes ("HTTP/1.1 200 OK\r\nDate: Sun, 01 Nov 2026 10:00:00 GMT\r\n"
          ++ "Connection: keep-alive\r\nServer: Moustique\r\nContent-Length: 2\r\n\r\nok")]) := by
  refine ⟨by decide, by decide, ?_⟩
  rw [respond_small_writes_expected _ _ (by decide) (by decide) (by decide)]
  decide

/-! ## C4: shape of a response -/

theorem digitChar_ne_lf (d : Nat) (h : d < 10) : (Nat.digitChar d).toNat ≠ 10 := by
  interval_cases d <;> decide

theorem toDigitsCore_no_lf (f : Nat) : ∀ (n : Nat) (acc : List Char),
    (∀ c ∈ acc, c.toNat ≠ 10) → ∀ c ∈ Nat.toDigitsCore 10 f n acc, c.toNat ≠ 10 := by
  induction f with
  | zero => intro n acc hacc c hc; simp [Nat.toDigitsCore] at hc; exact hacc c hc
  | succ f ih =>
    intro n acc hacc c hc
    simp only [Nat.toDigitsCore] at hc
    have hd : (Nat.digitChar (n % 10)).toNat ≠ 10 := digitChar_ne_lf _ (Nat.mod_lt _ (by decide))
    have hacc2 : ∀ c ∈ Nat.digitChar (n % 10) :: acc, c.toNat ≠ 10 := by
      intro c hc
      rcases List.mem_cons.mp hc with h | h
      · rw [h]; exact hd
      · exact hacc c h
    split at hc
    · exact hacc2 c hc
    · exact ih _ _ hacc2 c hc

theorem decimal_no_lf (n : Nat) : LF ∉ decimal n := by
  intro h
  simp only [decimal, Nat.toDigits, List.mem_map] at h
  obtain ⟨c, hc, h10⟩ := h
  exact toDigitsCore_no_lf _ _ _ (by simp) c hc h10

theorem crlf_lines_from_line (l : List Nat) (hl : LF ∉ l) : ∀ (acc rest : List Nat),
    crlf_lines_from acc (l ++ CR :: LF :: rest) = (acc.reverse ++ l) :: crlf_lines_from [] rest := by
  induction l with
  | nil =>
    intro acc rest
    simp [crlf_lines_from, CR, LF]
  | cons b l ih =>
    intro acc rest
    have hb : b ≠ LF := fun h => hl (by simp [h])
    have hl2 : LF ∉ l := fun h => hl (by simp [h])
    have step : crlf_lines_from acc (b :: (l ++ CR :: LF :: rest))
        = crlf_lines_from (b :: acc) (l ++ CR :: LF :: rest) := by
      simp [crlf_lines_from, hb]
    rw [List.cons_append, step, ih hl2]
    simp

theorem crlf_lines_cons (l rest : List Nat) (hl : LF ∉ l) :
    crlf_lines (l ++ (bytes "\r\n" ++ rest)) = l :: crlf_lines rest := by
  have h : bytes "\r\n" = [CR, LF] := by decide
  rw [h]
  simpa [crlf_lines] using crlf_lines_from_line l hl [] rest

theorem crlf_lines_flatten (ls : List (List Nat)) (rest : List Nat) (hls : ∀ l ∈ ls, LF ∉ l) :
    crlf_lines ((ls.map (fun l => l ++ bytes "\r\n")).flatten ++ rest) = ls ++ crlf_lines rest := by
  induction ls with
  | nil => simp
  | cons l ls ih =>
    have h1 : LF ∉ l := hls l (by simp)
    have h2 : ∀ l ∈ ls, LF ∉ l := fun x hx => hls x (by simp [hx])
    simp only [List.map_cons, List.flatten_cons, List.append_assoc, List.cons_append]
    rw [crlf_lines_cons l _ h1, ih h2]

theorem lit_date : bytes "Date:" = [68, 97, 116, 101, 58] := by decide

theorem lit_cl : bytes "Content-Length:"
    = [67, 111, 110, 116, 101, 110, 116, 45, 76, 101, 110, 103, 116, 104, 58] := by decide

theorem lit_cl_sp : bytes "Content-Length: "
    = [67, 111, 110, 116, 101, 110, 116, 45, 76, 101, 110, 103, 116, 104, 58, 32] := by decide

theorem lit_http : bytes "HTTP/1.1 " = [72, 84, 84, 80, 47, 49, 46, 49, 32] := by decide

theorem lit_date_sp : bytes "Date: " = [68, 97, 116, 101, 58, 32] := by decide

theorem lit_conn : bytes "Connection: keep-alive\r\nServer: Moustique\r\n"
    = bytes "Connection: keep-alive" ++ (bytes "\r\n" ++ (bytes "Server: Moustique" ++ bytes "\r\n")) := by
  decide

theorem lit_crlf2 : bytes "\r\n\r\n" = bytes "\r\n" ++ (bytes "\r\n" ++ []) := by decide

theorem expected_response_shape (st d body : List Nat) (ls : List (List Nat))
    (hst : LF ∉ st) (hd : LF ∉ d) (hls : ∀ l ∈ ls, LF ∉ l)
    (hdate : ∀ l ∈ ls, (bytes "Date:").isPrefixOf l = false)
    (hcl : ∀ l ∈ ls, (bytes "Content-Length:").isPrefixOf l = false) :
    response_shape st body
      (expected_response st d (ls.map (fun l => l ++ bytes "\r\n")).flatten body) := by
  have hlines : crlf_lines
      (bytes "HTTP/1.1 " ++ st ++ bytes "\r\n" ++ bytes "Date: " ++ d ++ bytes "\r\n"
        ++ bytes "Connection: keep-alive\r\nServer: Moustique\r\n"
        ++ (ls.map (fun l => l ++ bytes "\r\n")).flatten
        ++ bytes "Content-Length: " ++ decimal body.length ++ bytes "\r\n\r\n")
      = [bytes "HTTP/1.1 " ++ st, bytes "Date: " ++ d, bytes "Connection: keep-alive",
          bytes "Server: Moustique"] ++ ls
        ++ [bytes "Content-Length: " ++ decimal body.length, [], []] := by
    rw [lit_conn, lit_crlf2]
    simp only [List.append_assoc]
    have e1 : bytes "HTTP/1.1 " ++ (st ++ (bytes "\r\n" ++ (bytes "Date: " ++ (d ++ (bytes "\r\n"
        ++ (bytes "Connection: keep-alive" ++ (bytes "\r\n" ++ (bytes "Server: Moustique"
        ++ (bytes "\r\n" ++ ((ls.map (fun l => l ++ bytes "\r\n")).flatten
        ++ (bytes "Content-Length: " ++ (decimal body.length
        ++ (bytes "\r\n" ++ (bytes "\r\n" ++ []))))))))))))))
        = (bytes "HTTP/1.1 " ++ st) ++ (bytes "\r\n" ++ ((bytes "Date: " ++ d) ++ (bytes "\r\n"
        ++ (bytes "Connection: keep-alive" ++ (bytes "\r\n" ++ (bytes "Server: Moustique"
        ++ (bytes "\r\n" ++ ((ls.map (fun l => l ++ bytes "\r\n")).flatten
        ++ ((bytes "Content-Length: " ++ decimal body.length)
        ++ (bytes "\r\n" ++ ([] ++ (bytes "\r\n" ++ [])))))))))))) := by
      simp only [List.append_assoc, List.nil_append]
    rw [e1]
    rw [crlf_lines_cons _ _ (by
      intro h; rcases List.mem_append.mp h with h | h
      · revert h; decide
      · exact hst h)]
    rw [crlf_lines_cons _ _ (by
      intro h; rcases List.mem_append.mp h with h | h
      · revert h; decide
      · exact hd h)]
    rw [crlf_lines_cons _ _ (by decide), crlf_lines_cons _ _ (by decide)]
    rw [crlf_lines_flatten _ _ hls]
    rw [crlf_lines_cons _ _ (by
      intro h; rcases List.mem_append.mp h with h | h
      · revert h; decide
      · exact decimal_no_lf _ h)]
    rw [crlf_lines_cons _ _ (by decide)]
    simp [crlf_lines, crlf_lines_from]
  refine ⟨⟨bytes "Date: " ++ d ++ bytes "\r\n"
        ++ bytes "Connection: keep-alive\r\nServer: Moustique\r\n"
        ++ (ls.map (fun l => l ++ bytes "\r\n")).flatten
        ++ bytes "Content-Length: " ++ decimal body.length ++ bytes "\r\n\r\n" ++ body,
      by simp [expected_response, List.append_assoc]⟩, ?_⟩
  refine ⟨bytes "HTTP/1.1 " ++ st ++ bytes "\r\n" ++ bytes "Date: " ++ d ++ bytes "\r\n"
        ++ bytes "Connection: keep-alive\r\nServer: Moustique\r\n"
        ++ (ls.map (fun l => l ++ bytes "\r\n")).flatten
        ++ bytes "Content-Length: " ++ decimal body.length, ?_, ?_, ?_, ?_⟩
  · simp [expected_response, List.append_assoc]
  · have h0 : List.countP (fun l => (bytes "Date:").isPrefixOf l) ls = 0 := by
      rw [List.countP_eq_zero]
      intro l hl
      simp [hdate l hl]
    unfold header_count
    rw [hlines]
    simp only [List.countP_append, h0]
    simp [List.countP_cons, lit_date, lit_http, lit_date_sp, lit_cl_sp]
    decide
  · have h0 : List.countP (fun l => (bytes "Content-Length:").isPrefixOf l) ls = 0 := by
      rw [List.countP_eq_zero]
      intro l hl
      simp [hcl l hl]
    unfold header_count
    rw [hlines]
    simp only [List.countP_append, h0]
    simp [List.countP_cons, lit_cl, lit_http, lit_date_sp, lit_cl_sp]
    decide
  · rw [hlines]
    simp

theorem Res.bind_eq_ok {α β : Type} {x : Res α} {f : α → Res β} {b : β}
    (h : (x >>= f) = Res.ok b) : ∃ a, x = Res.ok a ∧ f a = Res.ok b := by
  cases x with
  | ok a => exact ⟨a, rfl, h⟩
  | fault e => simp at h

theorem put_eq_ok {o o1 : output_buffer} {s : List Nat} (h : o.put s = .ok o1) :
    o1 = { o with content := o.content ++ s } := by
  unfold output_buffer.put at h
  split at h
  · injection h with h; exact h.symm
  · simp at h

theorem put_cstr_eq_ok {o o1 : output_buffer} {s : List Nat} (h : o.put_cstr s = .ok o1) :
    o1 = { o with content := o.content ++ s } := by
  unfold output_buffer.put_cstr at h
  split at h
  · exact put_eq_ok h
  · simp at h

theorem put_char_eq_ok {o o1 : output_buffer} {v : Nat} (h : o.put_char v = .ok o1) :
    o1 = { o with content := o.content ++ [v] } := by
  unfold output_buffer.put_char at h
  split at h
  · injection h with h; exact h.symm
  · simp at h

theorem set_header_eq_ok {c c1 : http_ctx} {k v : List Nat} (h : c.set_header k v = .ok c1) :
    c1 = { c with headers_stream :=
      { c.headers_stream with
        content := c.headers_stream.content
          ++ ((header_op.set_header k v).line ++ bytes "\r\n") } } := by
  unfold http_ctx.set_header at h
  obtain ⟨o1, h1, h⟩ := Res.bind_eq_ok h
  obtain ⟨o2, h2, h⟩ := Res.bind_eq_ok h
  obtain ⟨o3, h3, h⟩ := Res.bind_eq_ok h
  obtain ⟨o4, h4, h⟩ := Res.bind_eq_ok h
  rw [put_eq_ok h1] at h2
  rw [put_cstr_eq_ok h2] at h3
  rw [put_eq_ok h3] at h4
  rw [put_cstr_eq_ok h4] at h
  simp only [Res.pure_eq, Res.ok.injEq] at h
  rw [← h]
  simp [header_op.line, List.append_assoc]

theorem set_cookie_eq_ok {c c1 : http_ctx} {k v : List Nat} (h : c.set_cookie k v = .ok c1) :
    c1 = { c with headers_stream :=
      { c.headers_stream with
        content := c.headers_stream.content
          ++ ((header_op.set_cookie k v).line ++ bytes "\r\n") } } := by
  unfold http_ctx.set_cookie at h
  obtain ⟨o1, h1, h⟩ := Res.bind_eq_ok h
  obtain ⟨o2, h2, h⟩ := Res.bind_eq_ok h
  obtain ⟨o3, h3, h⟩ := Res.bind_eq_ok h
  obtain ⟨o4, h4, h⟩ := Res.bind_eq_ok h
  obtain ⟨o5, h5, h⟩ := Res.bind_eq_ok h
  rw [put_cstr_eq_ok h1] at h2
  rw [put_eq_ok h2] at h3
  rw [put_char_eq_ok h3] at h4
  rw [put_eq_ok h4] at h5
  rw [put_cstr_eq_ok h5] at h
  simp only [Res.pure_eq, Res.ok.injEq] at h
  rw [← h]
  simp [header_op.line, List.append_assoc]

theorem run_header_ops_eq_ok (ops : List header_op) : ∀ (c c1 : http_ctx),
    run_header_ops ops c = .ok c1 →
    c1 = { c with headers_stream :=
      { c.headers_stream with
        content := c.headers_stream.content
          ++ (ops.map (fun op => op.line ++ bytes "\r\n")).flatten } } := by
  induction ops with
  | nil =>
    intro c c1 h
    simp only [run_header_ops, Res.ok.injEq] at h
    simp [← h]
  | cons op ops ih =>
    intro c c1 h
    cases op with
    | set_header k v =>
      simp only [run_header_ops] at h
      obtain ⟨c2, h2, h⟩ := Res.bind_eq_ok h
      rw [ih _ _ h, set_header_eq_ok h2]
      simp [List.append_assoc]
    | set_cookie k v =>
      simp only [run_header_ops] at h
      obtain ⟨c2, h2, h⟩ := Res.bind_eq_ok h
      rw [ih _ _ h, set_cookie_eq_ok h2]
      simp [List.append_assoc]

theorem status_text_cases (P : List Nat → Prop) (code : Int)
    (h1 : P (bytes "200 OK")) (h2 : P (bytes "201 Created")) (h3 : P (bytes "204 No Content"))
    (h4 : P (bytes "304 Not Modified")) (h5 : P (bytes "400 Bad Request"))
    (h6 : P (bytes "401 Unauthorized")) (h7 : P (bytes "402 Not Found"))
    (h8 : P (bytes "403 Forbidden")) (h9 : P (bytes "404 Not Found"))
    (h10 : P (bytes "409 Conflict")) (h11 : P (bytes "500 Internal Server Error")) :
    P (status_text code) := by
  unfold status_text
  by_cases c1 : code = 200
  · rw [if_pos c1]; exact h1
  rw [if_neg c1]
  by_cases c2 : code = 201
  · rw [if_pos c2]; exact h2
  rw [if_neg c2]
  by_cases c3 : code = 204
  · rw [if_pos c3]; exact h3
  rw [if_neg c3]
  by_cases c4 : code = 304
  · rw [if_pos c4]; exact h4
  rw [if_neg c4]
  by_cases c5 : code = 400
  · rw [if_pos c5]; exact h5
  rw [if_neg c5]
  by_cases c6 : code = 401
  · rw [if_pos c6]; exact h6
  rw [if_neg c6]
  by_cases c7 : code = 402
  · rw [if_pos c7]; exact h7
  rw [if_neg c7]
  by_cases c8 : code = 403
  · rw [if_pos c8]; exact h8
  rw [if_neg c8]
  by_cases c9 : code = 404
  · rw [if_pos c9]; exact h9
  rw [if_neg c9]
  by_cases c10 : code = 409
  · rw [if_pos c10]; exact h10
  rw [if_neg c10]
  by_cases c11 : code = 500
  · rw [if_pos c11]; exact h11
  rw [if_neg c11]
  exact h1

theorem status_text_length (code : Int) : (status_text code).length < 50 :=
  status_text_cases (fun t => t.length < 50) code (by decide) (by decide) (by decide)
    (by decide) (by decide) (by decide) (by decide) (by decide) (by decide) (by decide)
    (by decide)

theorem status_text_no_lf (code : Int) : LF ∉ status_text code :=
  status_text_cases (fun t => LF ∉ t) code (by decide) (by decide) (by decide)
    (by decide) (by decide) (by decide) (by decide) (by decide) (by decide) (by decide)
    (by decide)

theorem respond_if_needed_writes_expected (c : http_ctx) (hrw : c.response_written_ = false)
    (hst : c.status_.length < 50)
    (hfit : (expected_response c.status_ c.date_buf c.headers_stream.content []).length < 10200) :
    c.respond_if_needed = .ok
      { c with
        response_written_ := true,
        written := c.written ++
          [expected_response c.status_ c.date_buf c.headers_stream.content []] } := by
  rw [expected_response_length] at hfit
  have hdec : (decimal ([] : List Nat).length).length = 1 := by decide
  rw [hdec] at hfit
  have hlit : bytes "Content-Length: 0\r\n\r\n"
      = bytes "Content-Length: " ++ decimal ([] : List Nat).length ++ bytes "\r\n\r\n" := by decide
  have hlen : (bytes "Content-Length: 0\r\n\r\n").length = 21 := by decide
  unfold http_ctx.respond_if_needed
  simp only [hrw, Bool.false_eq_true, not_false_eq_true, if_true, Res.pure_eq, Res.ok_bind]
  rw [format_top_headers_ok { c with response_written_ := true } hst (by simp only []; omega)]
  simp only [Res.ok_bind, output_buffer.to_string_view]
  rw [put_ok _ _ (by simp [len_http, len_crlf, len_date, len_conn]; omega)]
  simp only [Res.ok_bind]
  rw [put_cstr_ok _ _ (by rw [hlen]; omega)
    (by simp [len_http, len_crlf, len_date, len_conn, hlen]; omega)]
  simp [expected_response, hlit, http_ctx.write]

/-- C4 (as stated, refuted): the handler adds a header named `Date` and then responds; the
bytes written carry two lines that begin with `Date:`. -/
theorem response_with_handler_date_has_two_date_lines :
    ((http_ctx.new read_buffer.new [] sample_date).set_header (bytes "Date") (bytes "x")
        >>= fun c => c.respond (bytes "ok")).view
      (fun c => c.written.map (fun out =>
        header_count (bytes "Date:") (out.take (out.length - 2))))
    = .ok [2] := by
  decide!

/-- C4 (amended): let the handler's `set_header` and `set_cookie` calls, made on an empty
scratch, contain no line feed and add no line that begins with `Date:` or `Content-Length:`,
let the status be one of `set_status` and the cached date hold no line feed.  Then a response
that fits the 10,200-byte output buffer, emitted by `respond` for a body of at most 10,000
bytes or by `respond_if_needed`, is one `write` whose bytes start with `HTTP/1.1 <status>
CRLF`, have exactly one `Date:` line and exactly one `Content-Length:` line before the body,
that line giving the length of the body, and end with CRLF CRLF and the body. -/
theorem response_shape_of_respond (c0 c : http_ctx) (ops : List header_op) (code : Int)
    (h0 : c0.headers_stream.content = [])
    (hops : run_header_ops ops c0 = .ok c)
    (hstat : c.status_ = status_text code)
    (hd : LF ∉ c.date_buf)
    (hlf : ∀ op ∈ ops, LF ∉ op.line)
    (hdate : ∀ op ∈ ops, (bytes "Date:").isPrefixOf op.line = false)
    (hcl : ∀ op ∈ ops, (bytes "Content-Length:").isPrefixOf op.line = false) :
    (∀ s : List Nat, s.length ≤ 10000 →
      (expected_response c.status_ c.date_buf c.headers_stream.content s).length < 10200 →
      ∃ c1 out, c.respond s = .ok c1 ∧ c1.written = c.written ++ [out]
        ∧ response_shape c.status_ s out)
    ∧ (c.response_written_ = false →
      (expected_response c.status_ c.date_buf c.headers_stream.content []).length < 10200 →
      ∃ c1 out, c.respond_if_needed = .ok c1 ∧ c1.written = c.written ++ [out]
        ∧ response_shape c.status_ [] out) := by
  have hscratch : c.headers_stream.content
      = ((ops.map header_op.line).map (fun l => l ++ bytes "\r\n")).flatten := by
    rw [run_header_ops_eq_ok ops c0 c hops]
    simp [h0, List.map_map, Function.comp_def]
  have hst : c.status_.length < 50 := by rw [hstat]; exact status_text_length code
  have hstlf : LF ∉ c.status_ := by rw [hstat]; exact status_text_no_lf code
  have hshape : ∀ s : List Nat, response_shape c.status_ s
      (expected_response c.status_ c.date_buf c.headers_stream.content s) := by
    intro s
    rw [hscratch]
    apply expected_response_shape _ _ _ _ hstlf hd
    · intro l hl
      obtain ⟨op, hop, rfl⟩ := List.mem_map.mp hl
      exact hlf op hop
    · intro l hl
      obtain ⟨op, hop, rfl⟩ := List.mem_map.mp hl
      exact hdate op hop
    · intro l hl
      obtain ⟨op, hop, rfl⟩ := List.mem_map.mp hl
      exact hcl op hop
  constructor
  · intro s hs hfit
    exact ⟨_, _, respond_small_ok c s hs hst hfit, rfl, hshape s⟩
  · intro hrw hfit
    exact ⟨_, _, respond_if_needed_writes_expected c hrw hst hfit, rfl, hshape []⟩

/-- Witness for C4: a `Content-Type` header and a cookie, then the body `ok`. -/
theorem response_shape_of_respond_witness :
    ∃ c1 out,
      ({ http_ctx.new read_buffer.new [] sample_date with
          headers_stream :=
            { capacity := 1000,
              content := bytes "Content-Type: text/plain\r\nSet-Cookie: sid=42\r\n" } }
        : http_ctx).respond (bytes "ok") = .ok c1
      ∧ c1.written = [out] ∧ response_shape (bytes "200 OK") (bytes "ok") out :=
  (response_shape_of_respond (http_ctx.new read_buffer.new [] sample_date)
    { http_ctx.new read_buffer.new [] sample_date with
      headers_stream :=
        { capacity := 1000,
          content := bytes "Content-Type: text/plain\r\nSet-Cookie: sid=42\r\n" } }
    [.set_header (bytes "Content-Type") (bytes "text/plain"),
     .set_cookie (bytes "sid") (bytes "42")] 200
    rfl rfl (by decide) (by decide) (by decide) (by decide) (by decide)).1
    (bytes "ok") (by decide) (by decide!)
/-! ## C5: the request line -/

/-- The second `split` of `parse_first_line`, on the range of a URL that has a byte other than
`?`: the view is not empty, starts inside the URL, ends at most one byte after it and holds
no `?`. -/
theorem split_url (mem : Nat → Nat) (q : Nat) (U : List Nat)
    (hmem : load mem q U.length = U) (hUq : ∃ b ∈ U, b ≠ 63) :
    0 < (split mem q (q + U.length) 63).1.size
    ∧ q ≤ (split mem q (q + U.length) 63).1.data
    ∧ (split mem q (q + U.length) 63).1.data + (split mem q (q + U.length) 63).1.size
        ≤ q + U.length + 1
    ∧ ∀ i, i < (split mem q (q + U.length) 63).1.size →
        mem ((split mem q (q + U.length) 63).1.data + i) ≠ 63 := by
  obtain ⟨b, hb, hb63⟩ := hUq
  have hlen : 0 < U.length := List.length_pos_of_mem hb
  obtain ⟨s1, s2, s3, s4⟩ := skip_eq_spec mem 63 (q + U.length - 1 - q) q
  generalize hs : skip_eq mem 63 (q + U.length - 1 - q) q = s at s1 s2 s3 s4
  have hsne : mem s ≠ 63 := by
    by_cases hlt : s < q + (q + U.length - 1 - q)
    · exact s4 hlt
    · -- every byte before the last is `?`, so the last one is not
      intro h63
      apply hb63
      obtain ⟨j, hj, rfl⟩ := List.mem_iff_getElem.mp hb
      have hj2 := mem_of_load_eq hmem j hj
      rw [List.getD_eq_getElem?_getD, List.getElem?_eq_getElem hj] at hj2
      simp only [Option.getD_some] at hj2
      rw [← hj2]
      by_cases hjs : q + j < s
      · exact s3 _ (by omega) hjs
      · rw [show q + j = s by omega]; exact h63
  obtain ⟨e1, e2, e3, e4⟩ := scan_until_spec mem 63 (q + U.length - 1 - (s + 1)) (s + 1)
  generalize he : scan_until mem 63 (q + U.length - 1 - (s + 1)) (s + 1) = e at e1 e2 e3 e4
  unfold split
  simp only [hs, he]
  by_cases h63 : mem e = 63
  · simp only [h63, if_true]
    refine ⟨by omega, s1, by omega, ?_⟩
    intro i hi
    by_cases hi0 : i = 0
    · rw [hi0]; exact hsne
    · exact e3 _ (by omega) (by omega)
  · simp only [h63, if_false]
    refine ⟨by omega, s1, by omega, ?_⟩
    intro i hi
    by_cases hi0 : i = 0
    · rw [hi0]; exact hsne
    · by_cases hie : s + i = e
      · rw [hie]; exact h63
      · exact e3 _ (by omega) (by omega)

theorem lit_http_slash : bytes "HTTP/" = [72, 84, 84, 80, 47] := by decide

/-- The three views `parse_first_line` takes from a request line `M SP U SP HTTP/V CRLF`. -/
theorem parse_first_line_ok (c : http_ctx) (p : Nat) (M U V : List Nat)
    (hline0 : c.header_lines.getD 0 0 = p)
    (hline1 : c.header_lines.getD 1 0 = p + (M.length + 1 + U.length + 1 + 5 + V.length + 2))
    (hmem : load c.rb.mem p (M ++ ([SP] ++ (U ++ ([SP] ++ (bytes "HTTP/" ++ V ++ [CR, LF]))))).length
      = M ++ ([SP] ++ (U ++ ([SP] ++ (bytes "HTTP/" ++ V ++ [CR, LF])))))
    (hM : M ≠ []) (hMsp : SP ∉ M) (hU : U ≠ []) (hUsp : SP ∉ U) (hVcr : CR ∉ V) :
    c.parse_first_line.method_ = { data := p, size := M.length }
    ∧ c.parse_first_line.http_version_
        = { data := p + M.length + 1 + U.length + 1, size := 5 + V.length }
    ∧ c.parse_first_line.url_ = (split c.rb.mem (p + M.length + 1)
        (p + M.length + 1 + U.length) 63).1
    ∧ load c.rb.mem (p + M.length + 1) U.length = U := by
  obtain ⟨mM, h1⟩ := load_append hmem
  obtain ⟨-, h2⟩ := load_append h1
  obtain ⟨mU, h3⟩ := load_append h2
  obtain ⟨-, h4⟩ := load_append h3
  obtain ⟨mHV, h5⟩ := load_append h4
  have hMl : 0 < M.length := List.length_pos.mpr hM
  have hUl : 0 < U.length := List.length_pos.mpr hU
  have sp1 : c.rb.mem (p + M.length) = SP := by
    have := mem_of_load_eq h1 0 (by simp)
    simpa using this
  have sp2 : c.rb.mem (p + M.length + 1 + U.length) = SP := by
    have := mem_of_load_eq h3 0 (by simp)
    simpa [List.length_singleton] using this
  have hl5 : (bytes "HTTP/").length = 5 := by decide
  have cr : c.rb.mem (p + M.length + 1 + U.length + 1 + (5 + V.length)) = CR := by
    have := mem_of_load_eq h5 0 (by simp)
    simp only [List.length_singleton, List.length_append, hl5] at this
    simpa using this
  have hHV : CR ∉ bytes "HTTP/" ++ V := by
    intro h
    rcases List.mem_append.mp h with h | h
    · revert h; decide
    · exact hVcr h
  have r1 : split c.rb.mem p (c.header_lines.getD 1 0) SP
      = ({ data := p, size := M.length }, p + M.length + 1) :=
    split_token _ _ _ _ _ hMl (ne_of_load_eq mM hMsp) sp1 (by rw [hline1]; omega)
  have r2 : split c.rb.mem (p + M.length + 1) (c.header_lines.getD 1 0) SP
      = ({ data := p + M.length + 1, size := U.length }, p + M.length + 1 + U.length + 1) := by
    simp only [List.length_singleton] at mU
    exact split_token _ _ _ _ _ hUl (ne_of_load_eq mU hUsp) sp2 (by rw [hline1]; omega)
  have r3 : split c.rb.mem (p + M.length + 1 + U.length + 1) (c.header_lines.getD 1 0) CR
      = ({ data := p + M.length + 1 + U.length + 1, size := 5 + V.length },
         p + M.length + 1 + U.length + 1 + (5 + V.length) + 1) := by
    simp only [List.length_singleton, List.length_append, hl5] at mHV
    have hne := @ne_of_load_eq c.rb.mem (p + M.length + 1 + U.length + 1) CR
      (bytes "HTTP/" ++ V) (by simpa [hl5] using mHV) hHV
    simp only [List.length_append, hl5] at hne
    exact split_token _ _ _ _ _ (by omega) hne cr (by rw [hline1]; omega)
  simp only [List.length_singleton] at mU
  refine ⟨?_, ?_, ?_, mU⟩
  · simp only [http_ctx.parse_first_line, hline0, r1]
  · simp only [http_ctx.parse_first_line, hline0, r1, r2, r3]
  · simp only [http_ctx.parse_first_line, hline0, r1, r2]

/-- C5 (as stated, refuted): for the request line `GET ? HTTP/1.1` the view `url()` is the two
bytes `? `: it holds a `?`. -/
theorem url_of_question_mark_holds_question_mark :
    (make_http_processor url_handler 8 [] [bytes "GET ? HTTP/1.1\r\n\r\n"] sample_date).view
      (fun r => r.1)
    = .ok [bytes "? "] := by
  decide

/-- C5 (amended): for a request line `METHOD SP URL SP HTTP/VERSION CRLF` with non-empty
`METHOD` and `URL` that hold no space, a `URL` that has a byte other than `?`, and a
`VERSION` without carriage return, the accessors on a context that has not parsed the line yet
give: `method()` is exactly `METHOD`, `http_version()` is exactly `HTTP/VERSION`, and `url()`
is not empty, starts inside `URL`, ends at most one byte after it (so inside the request line)
and holds no `?`. -/
theorem request_line_slices (c : http_ctx) (p : Nat) (M U V : List Nat)
    (hline0 : c.header_lines.getD 0 0 = p)
    (hline1 : c.header_lines.getD 1 0 = p + (M.length + 1 + U.length + 1 + 5 + V.length + 2))
    (hmem : load c.rb.mem p (M ++ ([SP] ++ (U ++ ([SP] ++ (bytes "HTTP/" ++ V ++ [CR, LF]))))).length
      = M ++ ([SP] ++ (U ++ ([SP] ++ (bytes "HTTP/" ++ V ++ [CR, LF])))))
    (hM : M ≠ []) (hMsp : SP ∉ M) (hU : U ≠ []) (hUsp : SP ∉ U) (hUq : ∃ b ∈ U, b ≠ 63)
    (hV : V ≠ []) (hVcr : CR ∉ V)
    (hm0 : c.method_.size = 0) (hu0 : c.url_.size = 0) :
    c.method.1 = { data := p, size := M.length }
    ∧ c.http_version.1 = { data := p + M.length + 1 + U.length + 1, size := 5 + V.length }
    ∧ 0 < c.url.1.size
    ∧ p + M.length + 1 ≤ c.url.1.data
    ∧ c.url.1.data + c.url.1.size ≤ p + M.length + 1 + U.length + 1
    ∧ ∀ i, i < c.url.1.size → c.rb.mem (c.url.1.data + i) ≠ 63 := by
  have _hV := hV
  obtain ⟨a1, a2, a3, a4⟩ := parse_first_line_ok c p M U V hline0 hline1 hmem hM hMsp hU hUsp
    hVcr
  obtain ⟨b1, b2, b3, b4⟩ := split_url c.rb.mem (p + M.length + 1) U a4 hUq
  simp only [http_ctx.method, http_ctx.http_version, http_ctx.url, hm0, hu0, if_true]
  rw [a1, a2, a3]
  exact ⟨rfl, rfl, b1, b2, b3, b4⟩

/-- Witness for C5: the request line `GET /hi HTTP/1.1`. -/
theorem request_line_slices_witness :
    (request_ctx (bytes "GET /hi HTTP/1.1\r\n\r\n") [0, 18]).method.1 = { data := 0, size := 3 }
    ∧ (request_ctx (bytes "GET /hi HTTP/1.1\r\n\r\n") [0, 18]).http_version.1
        = { data := 0 + 3 + 1 + 3 + 1, size := 5 + 3 }
    ∧ 0 < (request_ctx (bytes "GET /hi HTTP/1.1\r\n\r\n") [0, 18]).url.1.size
    ∧ 0 + 3 + 1 ≤ (request_ctx (bytes "GET /hi HTTP/1.1\r\n\r\n") [0, 18]).url.1.data
    ∧ (request_ctx (bytes "GET /hi HTTP/1.1\r\n\r\n") [0, 18]).url.1.data
        + (request_ctx (bytes "GET /hi HTTP/1.1\r\n\r\n") [0, 18]).url.1.size ≤ 0 + 3 + 1 + 3 + 1
    ∧ ∀ i, i < (request_ctx (bytes "GET /hi HTTP/1.1\r\n\r\n") [0, 18]).url.1.size →
        (request_ctx (bytes "GET /hi HTTP/1.1\r\n\r\n") [0, 18]).rb.mem
          ((request_ctx (bytes "GET /hi HTTP/1.1\r\n\r\n") [0, 18]).url.1.data + i) ≠ 63 :=
  request_line_slices (request_ctx (bytes "GET /hi HTTP/1.1\r\n\r\n") [0, 18]) 0
    (bytes "GET") (bytes "/hi") (bytes "1.1")
    (by decide) (by decide) (by decide) (by decide) (by decide) (by decide) (by decide)
    (by decide) (by decide) (by decide) (by decide) (by decide)

/-! ## C6: `get_parameters_string` -/

/-- C6 (code as written): for `GET / HTTP/1.1` the second `split` of `parse_first_line` runs on
the one-byte range of the URL and leaves `c` two bytes further, one past `end`; the view
`std::string_view(c, end - c)` gets the length `-1`, which is `2^64 - 1` as a `size_t`.
`get_parameters_string()` is not empty. -/
theorem query_string_of_root_url_not_empty :
    (make_http_processor query_handler 8 [] [bytes "GET / HTTP/1.1\r\n\r\n"] sample_date).view
      (fun r => r.1)
    = .ok [{ data := 6, size := 18446744073709551615 }] := by
  decide

/-! ## C7: header values -/

/-- C8 (code as written): a request with `Content-Length: 2` arrives with the first body byte,
the second read brings the last body byte `i` together with the next request.  The handler
streams the body with `read_body`, which sets `body_end_` to the start of the last part
instead of its end; `prepare_next_request` frees up to there.  When the processor returns
(the following `read` gives 0 and leaves the buffer alone) `rb.cursor` is 39 and the bytes
there are `iGET`: the cursor is on the last body byte, the next request starts at 40. -/
theorem cursor_after_streamed_body_not_at_next_request :
    (make_http_processor read_body_handler 8 []
        [bytes "POST / HTTP/1.1\r\nContent-Length: 2\r\n\r\nh",
         bytes "iGET /b HTTP/1.1\r\n\r\n"] sample_date).view
      (fun r => (r.1, [r.2.written.length, r.2.rb.cursor, r.2.rb.end_],
                 load r.2.rb.mem r.2.rb.cursor 4, load r.2.rb.mem 40 3))
    = .ok ([bytes "h", bytes "i"], [1, 39, 59], bytes "iGET", bytes "GET") := by
  decide

/-! ## C9: pipelined requests -/

/-- C9 (code as written): both requests arrive in one read and the socket then has nothing
more.  The handler runs once, for `/a`, and one response is written; the loop then calls
`read_more` before it looks at the 19 buffered bytes of the second request (`cursor = 19`,
`end = 38`), gets 0 and returns. -/
theorem pipelined_pair_in_one_read_handled_once :
    (make_http_processor url_handler 8 []
        [bytes "GET /a HTTP/1.1\r\n\r\nGET /b HTTP/1.1\r\n\r\n"] sample_date).view
      (fun r => (r.1, r.2.written.length, r.2.rb.cursor, r.2.rb.end_))
    = .ok ([bytes "/a"], 1, 19, 38) := by
  decide

/-! ## C10: chunked body through `read_whole_body` -/

/-- C10 (code as written): second request of a keep-alive connection.  The first request was
47 bytes long with a carriage return at offset 43; after it the buffer is emptied but keeps
those bytes.  The chunked request has its body, one chunk of 16 bytes `x`, from offset 42 on,
and the first read ends inside the chunk size `10`, after the `1`.  `read_until` tests
`*str_end` at `rb.end` (offset 43), finds the old carriage return, and the size is read as
1.  `read_whole_body()` returns the single byte `\n` and sets `body_end_` to 66; the body is
16 bytes long and its zero chunk ends at 69. -/
theorem chunked_whole_body_misread_after_keep_alive :
    (make_http_processor read_whole_body_handler 8 []
        [bytes "GET /aaaaaaaaaaaaaaaaaaaaaaaaaaaaa HTTP/1.1\r\n\r\n",
         bytes "POST / HTTP/1.1\r\nContent-Type: chunked\r\n\r\n1",
         bytes "0\r\nxxxxxxxxxxxxxxxx\r\n0\r\n\r\n"] sample_date).view
      (fun r => (r.1, r.2.written.length, r.2.rb.cursor, r.2.rb.end_))
    = .ok ([[], bytes "\n"], 2, 66, 69) := by
  decide


/-! ## C11: a `Content-Length` body through `read_body` -/

/-- C11 (code as written): a request with `Content-Length: 6` whose body `abcdef` arrives
after the header block in the reads `abc`, `d` and `ef`.  `read_body` hands `abc` to the
callback and frees it, which takes `rb.end` back to the start of the part and leaves its
bytes in the buffer.  The next read stores `d` over the `a`; `read_more_str` builds its view
from a bare `char*`, so the view runs to the next zero byte and is `dbc`, and all of it is
within the 3 bytes still missing.  The callback has received the empty prefix, `abc` and
`dbc`: 6 bytes, but not the body (`ef` is never handed over; `rb.cursor` is left at 38 and
the read that brings `ef` is taken for the start of the next header block). -/
theorem content_length_read_body_hands_over_old_bytes :
    (make_http_processor read_body_handler 8 []
        [bytes "POST / HTTP/1.1\r\nContent-Length: 6\r\n\r\n", bytes "abc", bytes "d",
         bytes "ef"] sample_date).view
      (fun r => (r.1, r.1.flatten, r.2.written.length, r.2.rb.cursor, r.2.rb.end_))
    = .ok ([[], bytes "abc", bytes "dbc"], bytes "abcdbc", 1, 38, 41) := by
  decide

/-! ## C12: `post_parameters` -/

/-- C12 (code as written): the form body `a=1` (`Content-Length: 3`, no trailing `&`).  The
last value is one byte long; `split` starts its second loop one byte after the start of the
token, at the end of the body, and tests the byte it finds there, the first byte after the
body (0 in a new buffer).  `post_parameters()["a"]` is the two bytes `1` and 0, not `1`.
The body `name=alice&` of the specification gives `alice`. -/
theorem post_parameter_of_one_byte_runs_past_body :
    (make_http_processor (post_parameters_handler (bytes "a")) 8 []
        [bytes ("POST /f HTTP/1.1\r\nContent-Length: 3\r\n"
          ++ "Content-Type: application/x-www-form-urlencoded\r\n\r\na=1")] sample_date).view
      (fun r => (r.1, r.2.written.length))
      = .ok ([[49, 0]], 1)
    ∧ (make_http_processor (post_parameters_handler (bytes "name")) 8 []
        [bytes ("POST /f HTTP/1.1\r\nContent-Length: 11\r\n"
          ++ "Content-Type: application/x-www-form-urlencoded\r\n\r\nname=alice&")]
        sample_date).view
      (fun r => (r.1, r.2.written.length))
      = .ok ([bytes "alice"], 1) := by
  constructor <;> decide

/-! ## C13: `get_parameter` -/

/-- C13 (code as written): for `GET /q?a=1&b=two HTTP/1.1` the calls `get_parameter("a")` and
`get_parameter("b")` both return the empty view.  `get_parameter` parses the request line
and looks the key up in `get_parameters_map`, and no code stores into that map: the query
string is kept as `get_parameters_string_` and decoded only by `parse_get_parameters`, which
`get_parameter` does not call. -/
theorem get_parameter_returns_empty_view :
    (make_http_processor (get_parameter_handler (bytes "a")) 8 []
        [bytes "GET /q?a=1&b=two HTTP/1.1\r\n\r\n"] sample_date).view
      (fun r => (r.1, r.2.written.length))
      = .ok ([[]], 1)
    ∧ (make_http_processor (get_parameter_handler (bytes "b")) 8 []
        [bytes "GET /q?a=1&b=two HTTP/1.1\r\n\r\n"] sample_date).view
      (fun r => (r.1, r.2.written.length))
      = .ok ([[]], 1) := by
  constructor <;> decide

/-! ## C14: where `body_end_` lies -/

/-- C14 (code as written).  First run: a `GET` of 18 bytes, then a request with
`Content-Length: 2` that arrives whole in one read; the handler streams the body with
`read_body`.  The body is already in `body_start`, the loop that sets `body_end_` is not
entered, and `body_end_` keeps the value of the first request, 18, while the body starts at
38: `body_end_` is before the first body byte.  Second run: a chunked request whose zero
chunk `0 CR LF` has arrived without the closing CR LF; `read_whole_body()` adds 2 for them
without reading, and `body_end_` is 47 with `rb.end` at 45.  Each entry is `body_end_`,
`body_start.data()` and `rb.end`, as offsets in the buffer. -/
theorem body_end_before_body_or_past_end :
    (make_http_processor (body_end_handler false) 8 []
        [bytes "GET / HTTP/1.1\r\n\r\n",
         bytes "POST / HTTP/1.1\r\nContent-Length: 2\r\n\r\nhi"] sample_date).view
      (fun r => (r.1, r.2.written.length))
      = .ok ([(some 18, 18, 18), (some 18, 38, 40)], 2)
    ∧ (make_http_processor (body_end_handler true) 8 []
        [bytes "POST / HTTP/1.1\r\nContent-Type: chunked\r\n\r\n0\r\n"] sample_date).view
      (fun r => (r.1, r.2.written.length))
      = .ok ([(some 47, 42, 45)], 1) := by
  constructor <;> decide

/-! ## C15: `cursor <= end <= capacity` -/

theorem read_more_size (rb : read_buffer) (s : Sock) (size : Int) :
    (rb.read_more s size).2.1.size
      = if rb.size = rb.end_ ∧ rb.size ≤ 10 * 1024 * 1024 then rb.size * 2 else rb.size := by
  unfold read_buffer.read_more
  by_cases hfull : rb.size = rb.end_
  · by_cases hbig : rb.size > 10 * 1024 * 1024
    · have e1 : rb.size = rb.end_ ∧ rb.size > 10 * 1024 * 1024 := ⟨hfull, hbig⟩
      have e2 : ¬ (rb.size = rb.end_ ∧ rb.size ≤ 10 * 1024 * 1024) := fun h => by omega
      rw [if_pos e1, if_neg e2]
    · have e1 : ¬ (rb.size = rb.end_ ∧ rb.size > 10 * 1024 * 1024) := fun h => hbig h.2
      have e2 : rb.size = rb.end_ ∧ rb.size ≤ 10 * 1024 * 1024 := ⟨hfull, by omega⟩
      rw [if_neg e1, if_pos e2]
      simp only [if_pos hfull]
      split_ifs <;> rfl
  · have e1 : ¬ (rb.size = rb.end_ ∧ rb.size > 10 * 1024 * 1024) := fun h => hfull h.1
    have e2 : ¬ (rb.size = rb.end_ ∧ rb.size ≤ 10 * 1024 * 1024) := fun h => hfull h.1
    rw [if_neg e1, if_neg e2]
    simp only [if_neg hfull]
    split_ifs <;> rfl

theorem read_more_size_step (rb : read_buffer) (s : Sock) (size : Int)
    (h : ∃ j, j ≤ 12 ∧ rb.size = 4096 * 2 ^ j) :
    ∃ j, j ≤ 12 ∧ (rb.read_more s size).2.1.size = 4096 * 2 ^ j := by
  obtain ⟨j, hj, hs⟩ := h
  rw [read_more_size]
  by_cases hc : rb.size = rb.end_ ∧ rb.size ≤ 10 * 1024 * 1024
  · rw [if_pos hc]
    have hj2 : j ≠ 12 := by
      intro h12
      rw [h12] at hs
      have := hc.2
      rw [hs] at this
      exact absurd this (by decide)
    exact ⟨j + 1, by omega, by rw [hs, pow_succ]; omega⟩
  · rw [if_neg hc]
    exact ⟨j, hj, hs⟩

theorem read_more_calls_size (calls : List (Sock × Int)) :
    ∀ rb : read_buffer, (∃ j, j ≤ 12 ∧ rb.size = 4096 * 2 ^ j) →
      ∃ j, j ≤ 12 ∧ (read_more_calls rb calls).size = 4096 * 2 ^ j := by
  induction calls with
  | nil => intro rb h; exact h
  | cons c rest ih =>
    intro rb h
    obtain ⟨s, size⟩ := c
    exact ih _ (read_more_size_step rb s size h)

theorem read_more_fill (rb : read_buffer) (N x : Nat)
    (hN : rb.grown.size - rb.grown.end_ ≤ N)
    (hnb : ¬ (rb.size = rb.end_ ∧ rb.size > 10 * 1024 * 1024))
    (hle : rb.end_ ≤ rb.size) (hpos : 0 < rb.size) :
    (rb.read_more [List.replicate N x] (-1)).2.1.size = rb.grown.size
      ∧ (rb.read_more [List.replicate N x] (-1)).2.1.end_ = rb.grown.size := by
  have hroom := grown_room rb hle hpos
  have hlen : (sock_read [List.replicate N x] (rb.grown.size - rb.grown.end_)).1.length
      = rb.grown.size - rb.grown.end_ := by
    by_cases h : N ≤ rb.grown.size - rb.grown.end_
    · simp only [sock_read, List.length_replicate, if_pos h]; omega
    · simp only [sock_read, List.length_replicate, if_neg h, List.length_take]; omega
  rw [read_more_eq, if_neg hnb, if_neg (by rw [hlen]; omega)]
  simp only [read_buffer.received, hlen]
  exact ⟨by trivial, by omega⟩

theorem read_more_calls_fill (N x : Nat) :
    ∀ (k : Nat) (rb : read_buffer), rb.end_ = rb.size → 0 < rb.size →
      rb.size * 2 ^ k ≤ 2 * (10 * 1024 * 1024) → rb.size * 2 ^ k ≤ 2 * N →
      (read_more_calls rb (List.replicate k ([List.replicate N x], -1))).size = rb.size * 2 ^ k
      ∧ (read_more_calls rb (List.replicate k ([List.replicate N x], -1))).end_
          = rb.size * 2 ^ k := by
  intro k
  induction k with
  | zero => intro rb h _ _ _; simp [read_more_calls, h]
  | succ k ih =>
    intro rb he hpos hb hN
    have hp : 1 ≤ 2 ^ k := Nat.one_le_two_pow
    have hmul : rb.size * 2 ^ (k + 1) = rb.size * 2 * 2 ^ k := by rw [pow_succ]; ring
    have hsz : rb.size ≤ rb.size * 2 ^ k := Nat.le_mul_of_pos_right _ (by omega)
    have hm2 : rb.size * 2 * 2 ^ k = 2 * (rb.size * 2 ^ k) := by ring
    rw [hmul] at hb hN
    have hg : rb.grown.size = rb.size * 2 ∧ rb.grown.end_ = rb.size := by
      unfold read_buffer.grown
      rw [if_pos he.symm]
      exact ⟨rfl, he⟩
    have hf := read_more_fill rb N x (by rw [hg.1, hg.2]; omega) (by omega) (by omega) hpos
    rw [hg.1] at hf
    simp only [List.replicate_succ, read_more_calls]
    have := ih (rb.read_more [List.replicate N x] (-1)).2.1 (by rw [hf.1, hf.2]) (by omega)
      (by rw [hf.1]; exact hb) (by rw [hf.1]; exact hN)
    rw [hf.1] at this
    rw [hmul]
    exact this

/-- C16 (as stated, refuted): thirteen `read_more` calls on a new buffer, each with 8 MiB
ready on the socket.  The first fills the 4 KiB, each of the next twelve finds the buffer
full with a capacity of at most 8 MiB, which is not larger than 10 MiB, and doubles it: the
capacity ends at 16 MiB (16,777,216 bytes). -/
theorem read_buffer_grows_to_16_mib :
    (read_more_calls read_buffer.new
      (List.replicate 13 ([List.replicate 8388608 120], -1))).size = 16777216
    ∧ 10 * 1024 * 1024 < (read_more_calls read_buffer.new
      (List.replicate 13 ([List.replicate 8388608 120], -1))).size := by
  have h1 := read_more_fill read_buffer.new 8388608 120 (by decide) (by decide) (by decide)
    (by decide)
  have hg : read_buffer.new.grown.size = 4096 := by decide
  rw [hg] at h1
  have h2 := read_more_calls_fill 8388608 120 12
    (read_buffer.new.read_more [List.replicate 8388608 120] (-1)).2.1
    (by rw [h1.1, h1.2]) (by rw [h1.1]; decide) (by rw [h1.1]; decide) (by rw [h1.1]; decide)
  rw [h1.1] at h2
  have h3 : (read_more_calls read_buffer.new
      (List.replicate 13 ([List.replicate 8388608 120], -1))).size = 16777216 := by
    rw [List.replicate_succ, read_more_calls, h2.1]
    decide
  rw [h3]
  exact ⟨rfl, by decide⟩

/-- C16 (amended): after every sequence of `read_more` calls on a new buffer the capacity is
4096 times a power of two and at most 16 MiB (16,777,216 bytes).  A `read_more` call on a
full buffer doubles the capacity when it is at most 10 MiB, and returns 0 and leaves the
buffer as it is when the capacity is larger than 10 MiB. -/
theorem read_buffer_capacity_at_most_16_mib (calls : List (Sock × Int)) (s : Sock)
    (size : Int) :
    (read_more_calls read_buffer.new calls).size ≤ 16777216
    ∧ (∃ j, j ≤ 12 ∧ (read_more_calls read_buffer.new calls).size = 4096 * 2 ^ j)
    ∧ ((read_more_calls read_buffer.new calls).read_more s size).2.1.size
        = (if (read_more_calls read_buffer.new calls).size
                = (read_more_calls read_buffer.new calls).end_
              ∧ (read_more_calls read_buffer.new calls).size ≤ 10 * 1024 * 1024
           then (read_more_calls read_buffer.new calls).size * 2
           else (read_more_calls read_buffer.new calls).size)
    ∧ (if (read_more_calls read_buffer.new calls).size
            = (read_more_calls read_buffer.new calls).end_
          ∧ (read_more_calls read_buffer.new calls).size > 10 * 1024 * 1024
       then (read_more_calls read_buffer.new calls).read_more s size
              = (0, read_more_calls read_buffer.new calls, s)
       else True) := by
  have h := read_more_calls_size calls read_buffer.new ⟨0, by omega, by decide⟩
  refine ⟨?_, h, read_more_size _ s size, ?_⟩
  · obtain ⟨j, hj, hs⟩ := h
    rw [hs]
    have : 2 ^ j ≤ 2 ^ 12 := Nat.pow_le_pow_right (by omega) hj
    omega
  · split
    · rename_i hc
      unfold read_buffer.read_more
      rw [if_pos hc]
    · trivial

/-! ## C17: `respond_if_needed` -/

/-- C17 (as stated, refuted): the handler calls `set_status(404)` and does not respond;
`respond_if_needed` writes a response with the status line `HTTP/1.1 404 Not Found`. -/
theorem respond_if_needed_emits_404 :
    (((http_ctx.new read_buffer.new [] sample_date).set_status 404).respond_if_needed).view
      (fun c => c.written)
    = .ok [bytes ("HTTP/1.1 404 Not Found\r\nDate: Sun, 01 Nov 2026 10:00:00 GMT\r\n"
        ++ "Connection: keep-alive\r\nServer: Moustique\r\nContent-Length: 0\r\n\r\n")] := by
  decide

/-- C17 (amended): when the handler did not respond, `respond_if_needed` makes exactly one
`write`, of a response with an empty body and `Content-Length: 0` whose status line carries
the token last set with `set_status` (`200 OK` when it was not called) and whose header
block carries the lines added with `set_header` and `set_cookie`, provided the response is
shorter than the 10,200-byte output buffer; when a response was already written it writes
nothing and leaves the context as it is. -/
theorem respond_if_needed_emits_status_set (c : http_ctx) (code : Int)
    (hstat : c.status_ = status_text code)
    (hfit : (expected_response c.status_ c.date_buf c.headers_stream.content []).length < 10200) :
    (c.response_written_ = false →
      c.respond_if_needed = .ok
        { c with
          response_written_ := true,
          written := c.written ++
            [bytes "HTTP/1.1 " ++ status_text code ++ bytes "\r\n" ++ bytes "Date: " ++ c.date_buf
              ++ bytes "\r\n" ++ bytes "Connection: keep-alive\r\nServer: Moustique\r\n"
              ++ c.headers_stream.content ++ bytes "Content-Length: 0\r\n\r\n"] })
    ∧ (c.response_written_ = true → c.respond_if_needed = .ok c) := by
  constructor
  · intro hrw
    rw [respond_if_needed_writes_expected c hrw (by rw [hstat]; exact status_text_length code)
      hfit]
    have hlit : bytes "Content-Length: 0\r\n\r\n"
        = bytes "Content-Length: " ++ decimal ([] : List Nat).length ++ bytes "\r\n\r\n" := by
      decide
    rw [hlit, hstat]
    simp [expected_response]
  · intro hrw
    unfold http_ctx.respond_if_needed
    simp [hrw]

/-- Witness for C17: after `set_status(409)` on a new context the response written is
`HTTP/1.1 409 Conflict` with `Content-Length: 0`; a second call writes nothing. -/
theorem respond_if_needed_emits_status_set_witness :
    (((http_ctx.new read_buffer.new [] sample_date).set_status 409).respond_if_needed).view
        (fun c => (c.response_written_, c.written))
      = .ok (true, [bytes ("HTTP/1.1 409 Conflict\r\nDate: Sun, 01 Nov 2026 10:00:00 GMT\r\n"
          ++ "Connection: keep-alive\r\nServer: Moustique\r\nContent-Length: 0\r\n\r\n")])
    ∧ ({ (http_ctx.new read_buffer.new [] sample_date).set_status 409 with
          response_written_ := true } : http_ctx).respond_if_needed
      = .ok { (http_ctx.new read_buffer.new [] sample_date).set_status 409 with
          response_written_ := true } := by
  constructor
  · rw [(respond_if_needed_emits_status_set
      ((http_ctx.new read_buffer.new [] sample_date).set_status 409) 409 rfl (by decide!)).1 rfl]
    decide
  · exact (respond_if_needed_emits_status_set
      { (http_ctx.new read_buffer.new [] sample_date).set_status 409 with
        response_written_ := true } 409 rfl (by decide!)).2 rfl

/-! ## C18: the 10,200-byte output buffer of `respond` -/

/-- C18 (code as written): status `500 Internal Server Error`, a date of 29 bytes, a header
scratch of 900 bytes (one `set_header` call, within the 1000-byte scratch buffer) and a body
of 10,000 bytes.  The response takes 11,041 bytes; `respond` appends it to a buffer of
10,200 bytes and the `assert(cursor_ + s.size() < end_)` of `operator<<` fails when the body
is appended (without the assertion the `memcpy` stores past the buffer). -/
theorem respond_appends_past_output_buffer :
    (((http_ctx.new read_buffer.new [] sample_date).set_status 500).set_header (bytes "X-Pad")
        (List.replicate 891 120) >>= fun c =>
          (c.respond (List.replicate 10000 97)).view
            (fun c1 => (c.headers_stream.content.length, c1.written)))
      = .fault .assertion
    ∧ ((((http_ctx.new read_buffer.new [] sample_date).set_status 500).set_header
        (bytes "X-Pad") (List.replicate 891 120)).view
          (fun c => (c.headers_stream.content.length,
            (expected_response c.status_ c.date_buf c.headers_stream.content
              (List.replicate 10000 97)).length)))
      = .ok (900, 11041) := by
  constructor <;> decide!

/-! ## C19: `read` returning 0 while a body is read -/

theorem read_more_closed (rb : read_buffer) (size : Int) :
    (rb.read_more [] size).1 = 0 ∧ (rb.read_more [] size).2.2 = [] := by
  unfold read_buffer.read_more
  split_ifs <;> simp_all [sock_read]

theorem read_n_loop_closed (size : Int) :
    ∀ (fuel : Nat) (current_size : Int) (rb : read_buffer), current_size < size →
      read_n_loop size fuel current_size rb [] = .fault .fuel := by
  intro fuel
  induction fuel with
  | zero => intro cs rb _; rfl
  | succ n ih =>
    intro cs rb h
    rw [read_n_loop, if_pos h]
    simp only
    rw [(read_more_closed rb (-1)).1, (read_more_closed rb (-1)).2]
    exact ih _ _ (by simpa using h)

theorem prepare_next_request_closed (c : http_ctx) (fuel : Nat)
    (h1 : c.is_body_read_ = false) (h3 : c.content_length_ ≠ 0)
    (h4 : (c.rb.end_ : Int) < c.content_length_ + c.body_start.data) (h5 : c.sock = []) :
    c.prepare_next_request fuel = .fault .fuel := by
  have hb : ¬ (¬ c.chunked_ = true ∧ c.content_length_ = 0) := fun h => h3 h.2
  have hrn : c.rb.read_n fuel c.sock c.body_start.data c.content_length_ = .fault .fuel := by
    unfold read_buffer.read_n
    simp only
    rw [if_pos h4, h5, read_n_loop_closed _ _ _ _ (by omega)]
    rfl
  have hw : c.read_whole_body fuel = .fault .fuel := by
    unfold http_ctx.read_whole_body
    rw [if_neg hb, if_pos h3, hrn]
    rfl
  unfold http_ctx.prepare_next_request
  simp only [h1, Bool.false_eq_true, not_false_eq_true, if_true, hw, Res.view]
  rfl

theorem header_next_mono (F : Nat) (rb : read_buffer) (s : Sock) (x : Res header_scan)
    (r : header_scan × read_buffer × Sock)
    (ih : ∀ he lines, read_header F rb s he lines = .ok r →
      read_header (F + 1) rb s he lines = .ok r)
    (h : header_next F rb s x = .ok r) : header_next (F + 1) rb s x = .ok r := by
  cases x with
  | fault f => exact h
  | ok hs =>
    simp only [header_next] at h ⊢
    by_cases hc : hs.complete_header = true
    · rw [if_pos hc] at h ⊢; exact h
    · rw [if_neg hc] at h ⊢; exact ih _ _ h

theorem read_header_mono :
    ∀ (F : Nat) (rb : read_buffer) (s : Sock) (he : Nat) (lines : List Nat)
      (r : header_scan × read_buffer × Sock),
      read_header F rb s he lines = .ok r → read_header (F + 1) rb s he lines = .ok r := by
  intro F
  induction F with
  | zero => intro rb s he lines r h; cases h
  | succ n ih =>
    intro rb s he lines r h
    rw [read_header_succ] at h ⊢
    by_cases c1 : rb.size = rb.end_ ∧ rb.size > 10 * 1024 * 1024
    · rw [if_pos c1] at h ⊢; exact h
    · rw [if_neg c1] at h ⊢
      by_cases c2 : (sock_read s (rb.grown.size - rb.grown.end_)).1.length = 0
      · rw [if_pos c2] at h ⊢; exact h
      · rw [if_neg c2] at h ⊢
        exact header_next_mono n _ _ _ r (fun he1 lines1 => ih _ _ he1 lines1 r) h

theorem read_header_mono_le (F G : Nat) (hle : F ≤ G) (rb : read_buffer) (s : Sock) (he : Nat)
    (lines : List Nat) (r : header_scan × read_buffer × Sock)
    (h : read_header F rb s he lines = .ok r) : read_header G rb s he lines = .ok r := by
  induction G with
  | zero =>
    have : F = 0 := by omega
    rw [this] at h; exact h
  | succ n ih =>
    by_cases hF : F = n + 1
    · rw [hF] at h; exact h
    · exact read_header_mono n rb s he lines r (ih (by omega))

theorem next_request_mono (F G : Nat) (hle : F ≤ G) (c : http_ctx) (r : Bool × http_ctx)
    (h : next_request F c = .ok r) : next_request G c = .ok r := by
  unfold next_request at h ⊢
  simp only at h ⊢
  cases hr : read_header F c.rb c.sock c.rb.cursor [c.rb.cursor] with
  | fault f => rw [hr] at h; cases h
  | ok x =>
    rw [read_header_mono_le F G hle _ _ _ _ x hr]
    rw [hr] at h
    exact h

theorem http_processor_loop_succ {σ : Type} (handler : σ → http_ctx → Res (σ × http_ctx))
    (k fuel : Nat) (st : σ) (c : http_ctx) :
    http_processor_loop handler k (fuel + 1) st c
      = (next_request k c >>= fun r =>
          if r.1 then
            handler st r.2 >>= fun x =>
              x.2.prepare_next_request k >>= fun c3 => http_processor_loop handler k fuel x.1 c3
          else .ok (st, r.2)) := by
  rw [http_processor_loop]
  unfold next_request
  simp only
  cases read_header k c.rb c.sock c.rb.cursor [c.rb.cursor] with
  | fault f => rfl
  | ok x =>
    obtain ⟨h, rb, s⟩ := x
    simp only
    by_cases hc : h.complete_header = true
    · simp only [hc, not_true_eq_false, if_false]
      cases ({ c with is_body_read_ := false, header_lines := h.header_lines, rb := rb,
                      sock := s,
                      body_start := { data := h.header_end, size := rb.end_ - h.header_end } }
              : http_ctx).prepare_request with
      | fault f => rfl
      | ok c2 => rfl
    · simp only [hc, not_false_eq_true, if_true]
      rfl

/-- C19 (code as written): a request with `Content-Length: 5` arrives with the first two
body bytes and the peer closes, so every further `read` returns 0.  The handler does not
read the body; `prepare_next_request` calls `read_whole_body()`, and the loop
`while (current_size < size) current_size += read_more(read)` of `read_n` adds 0 in every
round and calls `read` again.  Whatever bound is put on the number of rounds, the
processor has not returned when the bound is reached. -/
theorem processor_reads_forever_after_close (fuel : Nat) :
    (make_http_processor url_handler fuel []
        [bytes "POST / HTTP/1.1\r\nContent-Length: 5\r\n\r\nab"] sample_date).view
      (fun r => r.1)
    = .fault .fuel := by
  cases fuel with
  | zero => rfl
  | succ n =>
    have hd : (next_request 1 (http_ctx.new read_buffer.new
          [bytes "POST / HTTP/1.1\r\nContent-Length: 5\r\n\r\nab"] sample_date) >>= fun r =>
          (url_handler [] r.2).view (fun x => ([r.1, x.2.is_body_read_, x.2.chunked_],
            x.2.content_length_, [x.2.body_start.data, x.2.rb.end_], x.2.sock)))
        = .ok ([true, false, false], 5, [38, 40], []) := by decide
    unfold make_http_processor
    rw [http_processor_loop_succ]
    cases hr : next_request 1 (http_ctx.new read_buffer.new
        [bytes "POST / HTTP/1.1\r\nContent-Length: 5\r\n\r\nab"] sample_date) with
    | fault f => rw [hr] at hd; cases hd
    | ok r =>
      rw [hr] at hd
      rw [next_request_mono 1 (n + 1) (by omega) _ r hr]
      simp only [Res.ok_bind] at hd ⊢
      cases hx : url_handler [] r.2 with
      | fault f => rw [hx] at hd; cases hd
      | ok x =>
        rw [hx] at hd
        simp only [Res.view, Res.ok.injEq, Prod.mk.injEq, List.cons.injEq, and_true] at hd
        obtain ⟨⟨e1, e2, _⟩, e4, ⟨e5, e6⟩, e7⟩ := hd
        rw [if_pos e1]
        simp only [Res.ok_bind]
        rw [prepare_next_request_closed x.2 (n + 1) e2 (by rw [e4]; decide)
          (by rw [e4, e5, e6]; decide) e7]
        rfl

/-! ## C20: what `write` returns -/

/-- C21 (code as written): a request with the header line `Transfer-Encoding: chunked` and
the chunked body `hello`.  `prepare_request` looks only at lines that begin with `C` or `c`
and sets `chunked_` from `content_type_ == "chunked"`: the handler finds `chunked_` false
and `content_length_` 0, `read_whole_body()` returns the empty view, and the 15 bytes of
the body stay in the buffer (`rb.cursor` 47, `rb.end` 62) as the start of the next header
block.  The same body under `Content-Type: chunked` is decoded as `hello`. -/
theorem transfer_encoding_chunked_not_chunked_mode :
    (make_http_processor body_mode_handler 8 []
        [bytes "POST / HTTP/1.1\r\nTransfer-Encoding: chunked\r\n\r\n5\r\nhello\r\n0\r\n\r\n"]
        sample_date).view
      (fun r => (r.1, r.2.written.length, r.2.rb.cursor, r.2.rb.end_))
      = .ok ([(false, 0, [])], 1, 47, 62)
    ∧ (make_http_processor body_mode_handler 8 []
        [bytes "POST / HTTP/1.1\r\nContent-Type: chunked\r\n\r\n5\r\nhello\r\n0\r\n\r\n"]
        sample_date).view
      (fun r => (r.1, r.2.written.length, r.2.rb.cursor, r.2.rb.end_))
      = .ok ([(true, 0, bytes "hello")], 1, 0, 0) := by
  constructor <;> decide

/-! ## C22: `free` on an interior hole -/

theorem free_interior_branch (rb : read_buffer) (i1 i2 : Nat)
    (h1 : rb.cursor < i1) (h2 : i1 < i2) (h3 : i2 < rb.end_) (h4 : rb.end_ ≤ rb.size)
    (h5 : rb.size - rb.end_ < rb.size / 4) :
    rb.free i1 i2 =
      if rb.end_ - i2 > i2 - i1 then
        .ok { rb with mem := memmove rb.mem i1 i2 (rb.end_ - i2) }
      else
        (memcpy rb.size rb.mem i1 rb.cursor (rb.end_ - rb.cursor)).view
          (fun m => { rb with mem := m }) := by
  have e1 : ¬ ¬ (i1 < i2) := by omega
  have e2 : ¬ ¬ (i1 < rb.size) := by omega
  have e3 : ¬ ¬ (0 < i2 ∧ i2 ≤ rb.size) := by omega
  have e4 : ¬ (i1 = rb.cursor ∧ i2 = rb.end_) := by omega
  have e5 : ¬ (i1 = rb.cursor) := by omega
  have e6 : ¬ (i2 = rb.end_) := by omega
  have e7 : (rb.size + SIZE_RANGE - rb.end_) % SIZE_RANGE < rb.size / 4 := by
    have : rb.size + SIZE_RANGE - rb.end_ = rb.size - rb.end_ + SIZE_RANGE := by omega
    rw [this, Nat.add_mod_right]
    exact Nat.lt_of_le_of_lt (Nat.mod_le _ _) h5
  unfold read_buffer.free
  rw [if_neg e1, if_neg e2, if_neg e3, if_neg e4, if_neg e5, if_neg e6, if_pos e7]
  by_cases hc : rb.end_ - i2 > i2 - i1
  · have hi : (rb.end_ : Int) - i2 > (i2 : Int) - i1 := by omega
    rw [if_pos hi, if_pos hc]
  · have hi : ¬ ((rb.end_ : Int) - i2 > (i2 : Int) - i1) := by omega
    rw [if_neg hi, if_neg hc]
    cases memcpy rb.size rb.mem i1 rb.cursor (rb.end_ - rb.cursor) <;> rfl

theorem memcpy_overlap (size : Nat) (mem : Nat → Nat) (dst src n : Nat)
    (h1 : src < dst + n) (h2 : dst < src + n) :
    memcpy size mem dst src n = .fault .undefined := by
  unfold memcpy
  rw [if_neg (by omega), if_neg (by omega)]

theorem free_interior_plain_copy (rb : read_buffer) (i1 i2 : Nat)
    (h1 : rb.cursor < i1) (h2 : i1 < i2) (h3 : i2 < rb.end_) (h4 : rb.end_ ≤ rb.size)
    (h5 : rb.size - rb.end_ < rb.size / 4) (h6 : rb.end_ - i2 ≤ i2 - i1) :
    rb.free i1 i2 = .fault .undefined := by
  rw [free_interior_branch rb i1 i2 h1 h2 h3 h4 h5, if_neg (by omega),
    memcpy_overlap _ _ _ _ _ (by omega) (by omega)]
  rfl

theorem load_memmove (mem : Nat → Nat) (dst src n : Nat) :
    load (memmove mem dst src n) dst n = load mem src n := by
  unfold load memmove
  apply List.map_congr_left
  intro i hi
  have := List.mem_range.mp hi
  rw [if_pos (by omega)]
  congr 1
  omega

theorem load_memmove_below (mem : Nat → Nat) (dst src n p k : Nat) (h : p + k ≤ dst) :
    load (memmove mem dst src n) p k = load mem p k := by
  unfold load memmove
  apply List.map_congr_left
  intro i hi
  have := List.mem_range.mp hi
  rw [if_neg (by omega)]

/-- C22 (code as written).  On an interior hole with little room left, `free(i1, i2)` moves
the bytes of `[i2, end)` to `i1` with `memmove` only when they are more than the hole is
long; then they lie from `i1` on and `[cursor, i1)` is as before.  Otherwise it calls
`memcpy(data + i1, data + cursor, end - cursor)`: source `cursor` instead of `i2`, length
`end - cursor`, two ranges that overlap, so the call is undefined.  In the run shown the
buffer of 4096 bytes holds 4000 bytes and `free(200, 3000)` asks for 4000 bytes to be
copied from offset 0 to offset 200, up to offset 4200, past the array. -/
theorem free_interior_hole_copies_from_cursor :
    ((read_buffer.holding (List.replicate 4000 120)).free 200 3000).view
        (fun r => (r.cursor, r.end_)) = .fault .undefined
    ∧ ((read_buffer.holding (List.replicate 4000 120)).cursor,
        (read_buffer.holding (List.replicate 4000 120)).end_,
        (read_buffer.holding (List.replicate 4000 120)).size) = (0, 4000, 4096)
    ∧ (∀ (rb : read_buffer) (i1 i2 : Nat), rb.cursor < i1 → i1 < i2 → i2 < rb.end_ →
        rb.end_ ≤ rb.size → rb.size - rb.end_ < rb.size / 4 → rb.end_ - i2 ≤ i2 - i1 →
        rb.free i1 i2
            = (memcpy rb.size rb.mem i1 rb.cursor (rb.end_ - rb.cursor)).view
                (fun m => { rb with mem := m })
          ∧ rb.free i1 i2 = .fault .undefined)
    ∧ (∀ (rb : read_buffer) (i1 i2 : Nat), rb.cursor < i1 → i1 < i2 → i2 < rb.end_ →
        rb.end_ ≤ rb.size → rb.size - rb.end_ < rb.size / 4 → rb.end_ - i2 > i2 - i1 →
        ∃ rb1, rb.free i1 i2 = .ok rb1
          ∧ load rb1.mem i1 (rb.end_ - i2) = load rb.mem i2 (rb.end_ - i2)
          ∧ load rb1.mem rb.cursor (i1 - rb.cursor) = load rb.mem rb.cursor (i1 - rb.cursor)) := by
  refine ⟨by decide!, by decide!, ?_, ?_⟩
  · intro rb i1 i2 h1 h2 h3 h4 h5 h6
    refine ⟨?_, free_interior_plain_copy rb i1 i2 h1 h2 h3 h4 h5 h6⟩
    rw [free_interior_branch rb i1 i2 h1 h2 h3 h4 h5, if_neg (by omega)]
  · intro rb i1 i2 h1 h2 h3 h4 h5 h6
    refine ⟨{ rb with mem := memmove rb.mem i1 i2 (rb.end_ - i2) }, ?_, ?_, ?_⟩
    · rw [free_interior_branch rb i1 i2 h1 h2 h3 h4 h5, if_pos h6]
    · exact load_memmove _ _ _ _
    · exact load_memmove_below _ _ _ _ _ _ (by omega)

/-! ## C23: which copy `free` and `reset` choose -/

theorem reset_plain_copy (rb : read_buffer) (h : rb.cursor < rb.end_ - rb.cursor) :
    rb.reset = .fault .undefined := by
  have e1 : ¬ ¬ (rb.cursor ≤ rb.end_) := by omega
  have e2 : ¬ (rb.cursor = rb.end_) := by omega
  have e3 : ¬ (rb.cursor > rb.end_ - rb.cursor) := by omega
  unfold read_buffer.reset
  rw [if_neg e1, if_neg e2, if_neg e3, memcpy_overlap _ _ _ _ _ (by omega) (by omega)]
  rfl

theorem reset_move (rb : read_buffer) (h1 : rb.cursor < rb.end_) (h2 : rb.end_ ≤ rb.size)
    (h : rb.cursor > rb.end_ - rb.cursor) :
    rb.reset = .ok { rb with mem := memmove rb.mem 0 rb.cursor (rb.end_ - rb.cursor),
                             end_ := rb.end_ - rb.cursor, cursor := 0 }
      ∧ memcpy rb.size rb.mem 0 rb.cursor (rb.end_ - rb.cursor)
          = .ok (memmove rb.mem 0 rb.cursor (rb.end_ - rb.cursor)) := by
  have e1 : ¬ ¬ (rb.cursor ≤ rb.end_) := by omega
  constructor
  · unfold read_buffer.reset
    by_cases e2 : rb.cursor = rb.end_
    · omega
    · rw [if_neg e1, if_neg e2, if_pos h]
  · unfold memcpy
    have e2 : ¬ (rb.end_ - rb.cursor = 0) := by omega
    rw [if_neg e2, if_pos (by omega)]

/-- C23 (code as written).  `reset` on a buffer that holds `0123456789` with the cursor at 2:
8 bytes go from offset 2 to offset 0, the ranges `[2, 10)` and `[0, 8)` overlap, and the
test `cursor > end - cursor` (2 > 8) is false, so `memcpy` is called.  `free(10, 3000)` on a
buffer of 4096 bytes that holds 4000: `memcpy` is asked to copy `[0, 4000)` to
`[10, 4010)`.  In general `reset` calls `memcpy` whenever fewer bytes are consumed than
remain, which is when the two ranges overlap, and `memmove` when more are consumed than
remain, which is when they are disjoint (there `memcpy` would be defined); the interior
branch of `free` calls `memcpy` on the range `[cursor, end)` and a destination inside
it. -/
theorem plain_copy_chosen_for_overlapping_ranges :
    ((read_buffer.holding (bytes "0123456789")).free 0 2 >>= fun rb => rb.reset).view
        (fun r => (r.cursor, r.end_)) = .fault .undefined
    ∧ ((read_buffer.holding (bytes "0123456789")).free 0 2).view
        (fun r => (r.cursor, r.end_, r.size)) = .ok (2, 10, 4096)
    ∧ ((read_buffer.holding (List.replicate 4000 120)).free 10 3000).view
        (fun r => (r.cursor, r.end_)) = .fault .undefined
    ∧ (∀ rb : read_buffer, rb.end_ ≤ rb.size → rb.cursor < rb.end_ - rb.cursor →
        rb.reset = .fault .undefined)
    ∧ (∀ rb : read_buffer, rb.cursor < rb.end_ → rb.end_ ≤ rb.size →
        rb.cursor > rb.end_ - rb.cursor →
        rb.reset = .ok { rb with mem := memmove rb.mem 0 rb.cursor (rb.end_ - rb.cursor),
                                 end_ := rb.end_ - rb.cursor, cursor := 0 }
          ∧ memcpy rb.size rb.mem 0 rb.cursor (rb.end_ - rb.cursor)
              = .ok (memmove rb.mem 0 rb.cursor (rb.end_ - rb.cursor)))
    ∧ (∀ (rb : read_buffer) (i1 i2 : Nat), rb.cursor < i1 → i1 < i2 → i2 < rb.end_ →
        rb.end_ ≤ rb.size → rb.size - rb.end_ < rb.size / 4 → rb.end_ - i2 ≤ i2 - i1 →
        rb.free i1 i2 = .fault .undefined) := by
  refine ⟨by decide, by decide, by decide!, ?_, ?_, ?_⟩
  · intro rb _ h
    exact reset_plain_copy rb h
  · intro rb h1 h2 h
    exact reset_move rb h1 h2 h
  · intro rb i1 i2 h1 h2 h3 h4 h5 h6
    exact free_interior_plain_copy rb i1 i2 h1 h2 h3 h4 h5 h6

/-! ## C24: `split` on a last token of one byte -/

/-- C24 (code as written): `split` on the one-byte range `[0, 1)` that holds `1`, with the
delimiter `&`.  Both loops stop before `line_end - 1`, `end` starts at `start + 1`, which is
`line_end`, and `*end` is tested there: with `Z` after the range the slice returned is the
two bytes `1Z`, with `&` after the range it is `1`; in both cases `cur` is left at 2, past
the end of the range.  On the range `[0, 2)` that holds `??`, with the delimiter `?`, the
first loop stops on the last `?` and the slice returned starts with it. -/
theorem split_reads_byte_at_end :
    split (store (fun _ => 0) 0 (bytes "1Z")) 0 1 38 = ({ data := 0, size := 2 }, 2)
    ∧ split (store (fun _ => 0) 0 (bytes "1&")) 0 1 38 = ({ data := 0, size := 1 }, 2)
    ∧ split (store (fun _ => 0) 0 (bytes "??Z")) 0 2 63 = ({ data := 1, size := 2 }, 3)
    ∧ load (store (fun _ => 0) 0 (bytes "??Z")) 1 2 = bytes "?Z" := by
  refine ⟨by decide, by decide, by decide, by decide⟩

/-! ## C25: the 100 slots of `header_lines` -/

/-- C25 (code as written): a request with 99 header lines.  The processor notes the start of
the header block and then one line start per CR LF; the CR LF that ends the 99th header line
is the 101st entry, and `add_header_line` stores it at `header_lines[100]`, past the 100
slots of the array: the store is undefined.  With 98 header lines the 100 slots suffice and
the request is answered. -/
theorem header_line_index_overrun :
    (make_http_processor url_handler 8 [] [request_with_headers 99] sample_date).view
        (fun r => (r.1.length, r.2.written.length))
      = .fault .undefined
    ∧ (make_http_processor url_handler 8 [] [request_with_headers 98] sample_date).view
        (fun r => (r.1.length, r.2.written.length))
      = .ok (1, 1) := by
  constructor <;> decide!
end Lithium
